import Mathlib

/-!
Verification development for the PromptPM package manager.

The Python sources are shallowly embedded here.  Python strings are
modelled as lists of characters (type Str below) so that every string
operation used by the code (lexicographic comparison by code point,
substring search, replacement, splitting, trimming) is an executable
structural recursion.  Machine-level concerns (the actual sha256
function, the filesystem walk, JSON file IO) are abstracted as explicit
data or function parameters; everything algorithmic is translated
directly from the source files.
-/

/-- Python strings, modelled as lists of characters (code points). -/
abbrev Str := List Char

/-- Coerce a Lean string literal into the model type. -/
def pstr (s : String) : Str := s.data

/-- Turn a hypothesis that a Bool is not true into an equation with false. -/
theorem boolNotTrue {x : Bool} (h : ¬ x = true) : x = false := by
  cases x
  · rfl
  · exact absurd rfl h

/-- Python string comparison by code points: the strict less-than test. -/
def strLt : Str → Str → Bool
  | [], [] => false
  | [], _ :: _ => true
  | _ :: _, [] => false
  | a :: as, b :: bs => if a < b then true else if b < a then false else strLt as bs

/-- Non-strict string comparison derived from strLt. -/
def strLe (a b : Str) : Bool := !(strLt b a)

theorem strLt_irrefl : ∀ s : Str, strLt s s = false := by
  intro s
  induction s with
  | nil => rfl
  | cons a as ih => simp [strLt, ih]

theorem strLt_asymm : ∀ a b : Str, strLt a b = true → strLt b a = false := by
  intro a
  induction a with
  | nil =>
    intro b h
    cases b with
    | nil => simp [strLt] at h
    | cons c cs => rfl
  | cons x xs ih =>
    intro b h
    cases b with
    | nil => simp [strLt] at h
    | cons y ys =>
      rcases lt_trichotomy x y with h1 | h1 | h1
      · simp [strLt, h1, lt_asymm h1]
      · subst h1
        simp [strLt, lt_irrefl] at h ⊢
        exact ih ys h
      · simp [strLt, h1, lt_asymm h1] at h

theorem strLt_trans : ∀ a b c : Str, strLt a b = true → strLt b c = true → strLt a c = true := by
  intro a
  induction a with
  | nil =>
    intro b c hab hbc
    cases b with
    | nil => simp [strLt] at hab
    | cons y ys =>
      cases c with
      | nil => simp [strLt] at hbc
      | cons z zs => rfl
  | cons x xs ih =>
    intro b c hab hbc
    cases b with
    | nil => simp [strLt] at hab
    | cons y ys =>
      cases c with
      | nil => simp [strLt] at hbc
      | cons z zs =>
        rcases lt_trichotomy x y with h1 | h1 | h1
        · rcases lt_trichotomy y z with h2 | h2 | h2
          · simp [strLt, lt_trans h1 h2]
          · subst h2
            simp [strLt, h1]
          · simp [strLt, h2, lt_asymm h2] at hbc
        · subst h1
          rcases lt_trichotomy x z with h2 | h2 | h2
          · simp [strLt, h2]
          · subst h2
            simp [strLt, lt_irrefl] at hab hbc ⊢
            exact ih ys zs hab hbc
          · simp [strLt, h2, lt_asymm h2] at hbc
        · simp [strLt, h1, lt_asymm h1] at hab

theorem strLt_conn : ∀ a b : Str, strLt a b = false → strLt b a = false → a = b := by
  intro a
  induction a with
  | nil =>
    intro b hab _
    cases b with
    | nil => rfl
    | cons y ys => simp [strLt] at hab
  | cons x xs ih =>
    intro b hab hba
    cases b with
    | nil => simp [strLt] at hba
    | cons y ys =>
      rcases lt_trichotomy x y with h1 | h1 | h1
      · simp [strLt, h1] at hab
      · subst h1
        simp [strLt, lt_irrefl] at hab hba
        exact congrArg (x :: ·) (ih ys hab hba)
      · simp [strLt, h1, lt_asymm h1] at hba

theorem strLe_total : ∀ a b : Str, (strLe a b || strLe b a) = true := by
  intro a b
  by_cases h : strLt b a = true
  · simp [strLe, strLt_asymm b a h]
  · simp [strLe, boolNotTrue h]

theorem strLe_trans : ∀ a b c : Str, strLe a b = true → strLe b c = true → strLe a c = true := by
  intro a b c hab hbc
  have h1 : strLt b a = false := by simpa [strLe] using hab
  have h2 : strLt c b = false := by simpa [strLe] using hbc
  by_cases h : strLt c a = true
  · by_cases hab2 : strLt a b = true
    · have h3 := strLt_trans c a b h hab2
      rw [h3] at h2
      exact absurd h2 (by simp)
    · have e : a = b := strLt_conn a b (boolNotTrue hab2) h1
      subst e
      rw [h] at h2
      exact absurd h2 (by simp)
  · simp [strLe, boolNotTrue h]

theorem strLe_refl : ∀ a : Str, strLe a a = true := by
  intro a
  simp [strLe, strLt_irrefl]

/-- Insert an element into a sorted list, going after existing elements
that the order prefers, which keeps the sort stable. -/
def insertLe {α : Type} (le : α → α → Bool) (a : α) : List α → List α
  | [] => [a]
  | b :: l => if le a b then a :: b :: l else b :: insertLe le a l

/-- Stable insertion sort, the model of the stable Python list.sort. -/
def pySort {α : Type} (le : α → α → Bool) : List α → List α
  | [] => []
  | a :: l => insertLe le a (pySort le l)

theorem mem_insertLe {α : Type} (le : α → α → Bool) (a x : α) :
    ∀ l : List α, x ∈ insertLe le a l ↔ x = a ∨ x ∈ l := by
  intro l
  induction l with
  | nil => simp [insertLe]
  | cons b l ih =>
    by_cases h : le a b = true
    · simp [insertLe, h]
    · simp only [insertLe, h]
      simp [ih]
      tauto

theorem mem_pySort {α : Type} (le : α → α → Bool) (x : α) :
    ∀ l : List α, x ∈ pySort le l ↔ x ∈ l := by
  intro l
  induction l with
  | nil => simp [pySort]
  | cons a l ih => simp [pySort, mem_insertLe, ih]

theorem pairwise_insertLe {α : Type} (le : α → α → Bool)
    (htrans : ∀ a b c, le a b = true → le b c = true → le a c = true)
    (htot : ∀ a b, (le a b || le b a) = true) (a : α) :
    ∀ l : List α, l.Pairwise (fun x y => le x y = true) →
      (insertLe le a l).Pairwise (fun x y => le x y = true) := by
  intro l
  induction l with
  | nil =>
    intro _
    simp [insertLe]
  | cons b l ih =>
    intro hp
    rcases List.pairwise_cons.mp hp with ⟨hb, hl⟩
    by_cases h : le a b = true
    · have he : insertLe le a (b :: l) = a :: b :: l := by simp [insertLe, h]
      rw [he]
      refine List.pairwise_cons.mpr ⟨?_, hp⟩
      intro x hx
      rcases List.mem_cons.mp hx with rfl | hx
      · exact h
      · exact htrans a b x h (hb x hx)
    · have he : insertLe le a (b :: l) = b :: insertLe le a l := by simp [insertLe, h]
      rw [he]
      refine List.pairwise_cons.mpr ⟨?_, ih hl⟩
      intro x hx
      rcases (mem_insertLe le a x l).mp hx with hxa | hx
      · rw [hxa]
        have := htot a b
        rw [boolNotTrue h] at this
        simpa using this
      · exact hb x hx

theorem pairwise_pySort {α : Type} (le : α → α → Bool)
    (htrans : ∀ a b c, le a b = true → le b c = true → le a c = true)
    (htot : ∀ a b, (le a b || le b a) = true) :
    ∀ l : List α, (pySort le l).Pairwise (fun x y => le x y = true) := by
  intro l
  induction l with
  | nil => simp [pySort]
  | cons a l ih => exact pairwise_insertLe le htrans htot a _ ih

theorem getLastD_mem {α : Type} (d : α) :
    ∀ l : List α, l ≠ [] → l.getLastD d ∈ l := by
  intro l
  induction l with
  | nil => intro h; exact absurd rfl h
  | cons a l ih =>
    intro _
    cases l with
    | nil => simp
    | cons b l2 =>
      have hmem := ih (by simp)
      rw [List.getLastD_cons]
      exact List.mem_cons_of_mem a hmem

theorem pairwise_le_getLastD {α : Type} (le : α → α → Bool) (d : α)
    (hrefl : ∀ a, le a a = true) :
    ∀ l : List α, l.Pairwise (fun x y => le x y = true) →
      ∀ x ∈ l, le x (l.getLastD d) = true := by
  intro l
  induction l with
  | nil => intro _ x hx; simp at hx
  | cons a l ih =>
    intro hp x hx
    rcases List.pairwise_cons.mp hp with ⟨ha, hl⟩
    cases l with
    | nil =>
      simp at hx
      subst hx
      simpa using hrefl x
    | cons b l2 =>
      rw [List.getLastD_cons]
      rcases List.mem_cons.mp hx with hxa | hx
      · rw [hxa]
        exact ha _ (getLastD_mem a (b :: l2) (by simp))
      · exact ih hl x hx

theorem insertLe_ne_nil {α : Type} (le : α → α → Bool) (a : α) :
    ∀ l : List α, insertLe le a l ≠ [] := by
  intro l
  cases l with
  | nil => simp [insertLe]
  | cons b l => by_cases h : le a b = true <;> simp [insertLe, h]

theorem pySort_ne_nil {α : Type} (le : α → α → Bool) (a : α) (l : List α) :
    pySort le (a :: l) ≠ [] := insertLe_ne_nil le a (pySort le l)

/-- Drop leading and trailing whitespace, the model of the Python strip. -/
def pyTrim (s : Str) : Str :=
  ((s.dropWhile Char.isWhitespace).reverse.dropWhile Char.isWhitespace).reverse

/-- Split a string on every occurrence of a single character. -/
def splitOnChar (c : Char) : Str → List Str
  | [] => [[]]
  | x :: xs =>
    let r := splitOnChar c xs
    if x = c then [] :: r
    else
      match r with
      | [] => [[x]]
      | h :: t => (x :: h) :: t

/-- Break a string at the first occurrence of a character, returning the
part before it and, when the character occurs, the part after it. -/
def breakAtFirst (c : Char) : Str → Str × Option Str
  | [] => ([], none)
  | x :: xs =>
    if x = c then ([], some xs)
    else
      let r := breakAtFirst c xs
      (x :: r.1, r.2)

/-- If pat is a leading segment of s, return the remainder of s. -/
def eatLead : Str → Str → Option Str
  | [], s => some s
  | _ :: _, [] => none
  | p :: ps, x :: xs => if p = x then eatLead ps xs else none

/-- Python substring membership test (the in operator on strings). -/
def strContains (hay needle : Str) : Bool :=
  match eatLead needle hay with
  | some _ => true
  | none =>
    match hay with
    | [] => false
    | _ :: rest => strContains rest needle

/-- Fuelled worker for replaceStr; the fuel is the length of the text,
which suffices because every step consumes at least one character. -/
def replaceGo (pat rep : Str) : Nat → Str → Str
  | _, [] => []
  | 0, s => s
  | fuel + 1, x :: xs =>
    match eatLead pat (x :: xs) with
    | some rest => rep ++ replaceGo pat rep fuel rest
    | none => x :: replaceGo pat rep fuel xs

/-- Python str.replace for a non-empty pattern: replace every
non-overlapping occurrence left to right.  The callers in the sources
only ever pass patterns that contain braces, hence non-empty. -/
def replaceStr (s pat rep : Str) : Str :=
  if pat = [] then s else replaceGo pat rep s.length s

/-- Fuelled worker for splitOnSub. -/
def splitSubGo (sep : Str) : Nat → Str → Str → List Str
  | _, cur, [] => [cur.reverse]
  | 0, cur, s => [cur.reverse ++ s]
  | fuel + 1, cur, x :: xs =>
    match eatLead sep (x :: xs) with
    | some rest => cur.reverse :: splitSubGo sep fuel [] rest
    | none => splitSubGo sep fuel (x :: cur) xs

/-- Python str.split with a non-empty separator string. -/
def splitOnSub (sep s : Str) : List Str := splitSubGo sep s.length [] s

/-- Fuelled worker for pyWords, accumulating the current word reversed. -/
def pyWordsGo (cur : Str) : Str → List Str
  | [] => if cur = [] then [] else [cur.reverse]
  | c :: cs =>
    if c.isWhitespace then
      if cur = [] then pyWordsGo [] cs else cur.reverse :: pyWordsGo [] cs
    else pyWordsGo (c :: cur) cs

/-- Python str.split with no argument: split on whitespace runs,
discarding empty pieces. -/
def pyWords (s : Str) : List Str := pyWordsGo [] s

/-- Join a list of strings with a separator. -/
def joinSep (sep : Str) : List Str → Str
  | [] => []
  | [x] => x
  | x :: y :: rest => x ++ sep ++ joinSep sep (y :: rest)

/-- Association list lookup with string keys, the model of dict access. -/
def alookup {β : Type} (k : Str) : List (Str × β) → Option β
  | [] => none
  | (k2, v) :: rest => if k = k2 then some v else alookup k rest

/-- Reversed decimal digits of a natural number, with fuel. -/
def natDigsRev : Nat → Nat → Str
  | 0, _ => []
  | fuel + 1, n => if n = 0 then [] else Char.ofNat (48 + n % 10) :: natDigsRev fuel (n / 10)

/-- Decimal rendering of a natural number. -/
def natToStr (n : Nat) : Str := if n = 0 then ['0'] else (natDigsRev n n).reverse

/-- Decimal rendering of an integer. -/
def intToStr (n : Int) : Str :=
  if n < 0 then '-' :: natToStr n.natAbs else natToStr n.natAbs

/-!
SemVer engine, translated from src/promptpm/core/semver.py.
-/

/-- Semantic version record, the model of the frozen dataclass
SemanticVersion in semver.py. -/
structure SemanticVersion where
  major : Nat
  minor : Nat
  patch : Nat
  prerelease : List Str
  build : List Str
deriving DecidableEq

/-- Python str.isdigit restricted to the identifier alphabet the
dataclass accepts: non-empty and all ASCII digits. -/
def strIsDigit (s : Str) : Bool := !(s.isEmpty) && s.all Char.isDigit

/-- Decimal value of a digit string, the model of the Python int() call. -/
def strToNat (s : Str) : Nat := s.foldl (fun a c => 10 * a + (c.toNat - 48)) 0

/-- Comparison of one pair of prerelease identifiers: the body of the
identifier loop in compare_prerelease.  Equal identifiers compare 0;
numeric identifiers compare by integer value; a numeric identifier is
below a non-numeric one; non-numeric identifiers compare by code-point
order. -/
def idCmp (l r : Str) : Int :=
  if l = r then 0
  else if strIsDigit l && strIsDigit r then
    if strToNat l < strToNat r then -1
    else if strToNat r < strToNat l then 1
    else 0
  else if strIsDigit l && !(strIsDigit r) then -1
  else if !(strIsDigit l) && strIsDigit r then 1
  else if strLt l r then -1
  else if strLt r l then 1
  else 0

/-- The zipped identifier loop of compare_prerelease together with its
final length tie-break: the loop walks both lists in step and returns
the first non-zero identifier comparison; when one list runs out first
the shorter list is smaller, exactly the length comparison the Python
code performs after the loop. -/
def preLoop : List Str → List Str → Int
  | [], [] => 0
  | [], _ :: _ => -1
  | _ :: _, [] => 1
  | l :: ls, r :: rs =>
    let c := idCmp l r
    if c = 0 then preLoop ls rs else c

/-- Model of the private compare_prerelease helper: an empty prerelease
list (a release version) is greater than a non-empty one. -/
def comparePrerelease (l r : List Str) : Int :=
  if l = [] && r = [] then 0
  else if l = [] then 1
  else if r = [] then -1
  else preLoop l r

/-- Lexicographic strict order on the integer core triples, the model of
the Python tuple comparison. -/
def coreLt (a b : SemanticVersion) : Bool :=
  decide (a.major < b.major) ||
    (decide (a.major = b.major) &&
      (decide (a.minor < b.minor) ||
        (decide (a.minor = b.minor) && decide (a.patch < b.patch))))

/-- Model of SemanticVersion.compare_to: compare the cores as integer
triples, then fall through to the prerelease comparison.  The build
component is never consulted. -/
def compareTo (a b : SemanticVersion) : Int :=
  if coreLt a b then -1
  else if coreLt b a then 1
  else comparePrerelease a.prerelease b.prerelease

/-- Character class of prerelease and build identifiers. -/
def isIdentChar (c : Char) : Bool := c.isDigit || c.isAlpha || c = '-'

/-- A dot-separated identifier as the regex accepts it: non-empty and
made only of identifier characters. -/
def isIdent (s : Str) : Bool := !(s.isEmpty) && s.all isIdentChar

/-- A numeric prerelease identifier must not carry a leading zero; this
is the post-init validation of the dataclass. -/
def identNoLeadingZero (s : Str) : Bool :=
  !(strIsDigit s) || decide (s.length ≤ 1) || decide (s.headD ' ' ≠ '0')

/-- A core field as the regex accepts it: 0, or digits without a leading
zero. -/
def isCoreNum (s : Str) : Bool :=
  match s with
  | [] => false
  | [c] => c.isDigit
  | c :: rest => decide (c ≠ '0') && c.isDigit && rest.all Char.isDigit

/-- Model of SemanticVersion.parse and the regex in semver.py: strip the
input, split off the optional build part after a plus sign, split off
the optional prerelease part after the first dash, check the three core
fields, then validate the identifiers exactly as the pattern and the
post-init checks do.  None models a raised SemVerError. -/
def parseVersion (value : Str) : Option SemanticVersion :=
  let normalized := pyTrim value
  let plusParts := splitOnChar '+' normalized
  match plusParts with
  | [headPart] => parseVersionCore headPart []
  | [headPart, buildPart] =>
    let buildIds := splitOnChar '.' buildPart
    if buildIds.all isIdent then parseVersionCore headPart buildIds else none
  | _ => none
where
  /-- Parse the core and optional prerelease, with the build already
  split off. -/
  parseVersionCore (s : Str) (buildIds : List Str) : Option SemanticVersion :=
    let broken := breakAtFirst '-' s
    let coreParts := splitOnChar '.' broken.1
    let preIds :=
      match broken.2 with
      | none => []
      | some preText => splitOnChar '.' preText
    match coreParts with
    | [ma, mi, pa] =>
      if isCoreNum ma && isCoreNum mi && isCoreNum pa &&
          preIds.all (fun i => isIdent i && identNoLeadingZero i) then
        some {
          major := strToNat ma
          minor := strToNat mi
          patch := strToNat pa
          prerelease := preIds
          build := buildIds
        }
      else none
    | _ => none

/-- Comparator operators of the range language. -/
inductive CompOp where
  | ltOp : CompOp
  | leOp : CompOp
  | gtOp : CompOp
  | geOp : CompOp
  | eqOp : CompOp
deriving DecidableEq

/-- Single comparator clause in a range, the model of VersionComparator. -/
structure VersionComparator where
  operator : CompOp
  version : SemanticVersion
deriving DecidableEq

/-- Model of VersionComparator.matches. -/
def compMatches (c : VersionComparator) (candidate : SemanticVersion) : Bool :=
  let cmpValue := compareTo candidate c.version
  match c.operator with
  | .ltOp => decide (cmpValue < 0)
  | .leOp => decide (cmpValue ≤ 0)
  | .gtOp => decide (cmpValue > 0)
  | .geOp => decide (cmpValue ≥ 0)
  | .eqOp => decide (cmpValue = 0)

/-- Semantic version range: OR-ed alternatives, each an AND of
comparators, the model of VersionRange. -/
structure VersionRange where
  alternatives : List (List VersionComparator)
deriving DecidableEq

/-- Model of VersionRange.matches. -/
def rangeMatches (r : VersionRange) (v : SemanticVersion) : Bool :=
  r.alternatives.any (fun alternative => alternative.all (fun c => compMatches c v))

/-- Model of the private caret_upper_bound helper in semver.py. -/
def caretUpperBound (base : SemanticVersion) : SemanticVersion :=
  if base.major > 0 then
    { major := base.major + 1, minor := 0, patch := 0, prerelease := [], build := [] }
  else if base.minor > 0 then
    { major := 0, minor := base.minor + 1, patch := 0, prerelease := [], build := [] }
  else
    { major := 0, minor := 0, patch := base.patch + 1, prerelease := [], build := [] }

/-- Model of the private parse_range_token helper: wildcard, caret,
tilde, the explicit comparator operators tried longest first, and the
bare version treated as an equality comparator. -/
def parseRangeToken (token : Str) : Option (List VersionComparator) :=
  if token = pstr "*" then some []
  else
    match token with
    | '^' :: rest =>
      (parseVersion rest).map (fun base =>
        [⟨.geOp, base⟩, ⟨.ltOp, caretUpperBound base⟩])
    | '~' :: rest =>
      (parseVersion rest).map (fun base =>
        [⟨.geOp, base⟩,
          ⟨.ltOp, { major := base.major, minor := base.minor + 1, patch := 0,
                    prerelease := [], build := [] }⟩])
    | _ =>
      match eatLead (pstr ">=") token with
      | some rest =>
        if rest = [] then none
        else (parseVersion rest).map (fun v => [⟨.geOp, v⟩])
      | none =>
        match eatLead (pstr "<=") token with
        | some rest =>
          if rest = [] then none
          else (parseVersion rest).map (fun v => [⟨.leOp, v⟩])
        | none =>
          match eatLead (pstr ">") token with
          | some rest =>
            if rest = [] then none
            else (parseVersion rest).map (fun v => [⟨.gtOp, v⟩])
          | none =>
            match eatLead (pstr "<") token with
            | some rest =>
              if rest = [] then none
              else (parseVersion rest).map (fun v => [⟨.ltOp, v⟩])
            | none =>
              match eatLead (pstr "=") token with
              | some rest =>
                if rest = [] then none
                else (parseVersion rest).map (fun v => [⟨.eqOp, v⟩])
              | none => (parseVersion token).map (fun v => [⟨.eqOp, v⟩])

/-- Parse one OR-alternative: trim it, split it into whitespace- or
comma-separated tokens, and concatenate the comparators of each token. -/
def parseAlternative (alternativeText : Str) : Option (List VersionComparator) :=
  let trimmed := pyTrim alternativeText
  if trimmed = [] then none
  else
    let tokens := (pyWords (replaceStr trimmed (pstr ",") (pstr " "))).filter (fun t => t ≠ [])
    if tokens = [] then none
    else
      (tokens.mapM parseRangeToken).map List.flatten

/-- Model of parse_version_range: empty or star matches everything,
otherwise split the expression on the OR separator and parse every
alternative.  None models a raised SemVerError. -/
def parseVersionRange (expression : Str) : Option VersionRange :=
  let normalized := pyTrim expression
  if normalized = [] || normalized = pstr "*" then some ⟨[[]]⟩
  else
    ((splitOnSub (pstr "||") normalized).mapM parseAlternative).map (fun alts => ⟨alts⟩)

/-- Model of satisfies_version_range; none models a SemVerError raised
while parsing the range expression. -/
def satisfiesVersionRange (version : SemanticVersion) (expression : Str) : Option Bool :=
  (parseVersionRange expression).map (fun r => rangeMatches r version)

example : parseVersion (pstr "1.2.3") =
    some { major := 1, minor := 2, patch := 3, prerelease := [], build := [] } := by decide

example : parseVersion (pstr "1.2.3-alpha.1+build.7") =
    some { major := 1, minor := 2, patch := 3,
           prerelease := [pstr "alpha", pstr "1"], build := [pstr "build", pstr "7"] } := by decide

example : parseVersion (pstr "01.2.3") = none := by decide

example : parseVersion (pstr "1.2.3-01") = none := by decide

example : parseVersion (pstr "1.2.3+0x") =
    some { major := 1, minor := 2, patch := 3, prerelease := [], build := [pstr "0x"] } := by decide

example : satisfiesVersionRange { major := 1, minor := 5, patch := 0, prerelease := [], build := [] }
    (pstr "^1.2.3") = some true := by decide

example : satisfiesVersionRange { major := 2, minor := 0, patch := 0, prerelease := [], build := [] }
    (pstr "^1.2.3") = some false := by decide

example : satisfiesVersionRange { major := 1, minor := 2, patch := 9, prerelease := [], build := [] }
    (pstr ">=1.2.3 <1.3.0 || 2.0.0") = some true := by decide

/-!
Order theory of the SemVer comparator.  Identifiers are mapped to a key
(an integer for numeric identifiers, the raw string otherwise); idCmp
agrees with a clean comparison of keys, from which reflexivity,
antisymmetry and transitivity of compare_to follow.
-/

/-- Key of one prerelease identifier: numeric identifiers compare as
integers, all others as raw strings. -/
def idKey (s : Str) : Sum Nat Str := if strIsDigit s then .inl (strToNat s) else .inr s

/-- Comparison of identifier keys. -/
def sumCmp : Sum Nat Str → Sum Nat Str → Int
  | .inl m, .inl n => if m < n then -1 else if n < m then 1 else 0
  | .inl _, .inr _ => -1
  | .inr _, .inl _ => 1
  | .inr a, .inr b => if strLt a b then -1 else if strLt b a then 1 else 0

theorem sumCmp_zero_iff : ∀ k1 k2, sumCmp k1 k2 = 0 ↔ k1 = k2 := by
  intro k1 k2
  cases k1 with
  | inl m =>
    cases k2 with
    | inl n =>
      simp only [sumCmp]
      constructor
      · intro h
        by_cases hmn : m < n
        · rw [if_pos hmn] at h
          exact absurd h (by decide)
        · by_cases hnm : n < m
          · rw [if_neg hmn, if_pos hnm] at h
            exact absurd h (by decide)
          · have hmem : m = n := by omega
            rw [hmem]
      · intro h
        injection h with h
        rw [h]
        simp [lt_irrefl]
    | inr b => simp [sumCmp]
  | inr a =>
    cases k2 with
    | inl n => simp [sumCmp]
    | inr b =>
      simp only [sumCmp]
      constructor
      · intro h
        by_cases h1 : strLt a b = true
        · rw [if_pos h1] at h
          exact absurd h (by decide)
        · by_cases h2 : strLt b a = true
          · rw [if_neg h1, if_pos h2] at h
            exact absurd h (by decide)
          · exact congrArg Sum.inr (strLt_conn a b (boolNotTrue h1) (boolNotTrue h2))
      · intro h
        injection h with h
        rw [h]
        simp [strLt_irrefl]

theorem sumCmp_antisym : ∀ k1 k2, sumCmp k1 k2 = -(sumCmp k2 k1) := by
  intro k1 k2
  cases k1 with
  | inl m =>
    cases k2 with
    | inl n =>
      simp only [sumCmp]
      split_ifs <;> omega
    | inr b => simp [sumCmp]
  | inr a =>
    cases k2 with
    | inl n => simp [sumCmp]
    | inr b =>
      simp only [sumCmp]
      by_cases h1 : strLt a b = true
      · simp [h1, strLt_asymm a b h1]
      · by_cases h2 : strLt b a = true
        · simp [boolNotTrue h1, h2]
        · simp [boolNotTrue h1, boolNotTrue h2]

theorem sumCmp_neg_trans :
    ∀ k1 k2 k3, sumCmp k1 k2 < 0 → sumCmp k2 k3 < 0 → sumCmp k1 k3 < 0 := by
  intro k1 k2 k3 h12 h23
  cases k1 with
  | inl m =>
    cases k2 with
    | inl n =>
      cases k3 with
      | inl p =>
        simp only [sumCmp] at h12 h23 ⊢
        split_ifs at h12 h23 ⊢ <;> omega
      | inr c => simp [sumCmp]
    | inr b =>
      cases k3 with
      | inl p => simp [sumCmp] at h23
      | inr c => simp [sumCmp]
  | inr a =>
    cases k2 with
    | inl n => simp [sumCmp] at h12
    | inr b =>
      cases k3 with
      | inl p => simp [sumCmp] at h23
      | inr c =>
        simp only [sumCmp] at h12 h23 ⊢
        by_cases h1 : strLt a b = true
        · by_cases h3 : strLt b c = true
          · simp [strLt_trans a b c h1 h3]
          · rw [if_neg h3] at h23
            by_cases h4 : strLt c b = true
            · rw [if_pos h4] at h23
              exact absurd h23 (by decide)
            · rw [if_neg h4] at h23
              exact absurd h23 (by decide)
        · rw [if_neg h1] at h12
          by_cases h5 : strLt b a = true
          · rw [if_pos h5] at h12
            exact absurd h12 (by decide)
          · rw [if_neg h5] at h12
            exact absurd h12 (by decide)

theorem idCmp_eq_sumCmp : ∀ x y, idCmp x y = sumCmp (idKey x) (idKey y) := by
  intro x y
  by_cases hxy : x = y
  · subst hxy
    simp only [idCmp, if_pos rfl, idKey]
    by_cases hd : strIsDigit x = true
    · simp [hd, sumCmp]
    · simp [boolNotTrue hd, sumCmp, strLt_irrefl]
  · by_cases hx : strIsDigit x = true <;> by_cases hy : strIsDigit y = true
    · simp [idCmp, hxy, hx, hy, idKey, sumCmp]
    · simp [idCmp, hxy, hx, boolNotTrue hy, idKey, sumCmp]
    · simp [idCmp, hxy, boolNotTrue hx, hy, idKey, sumCmp]
    · simp [idCmp, hxy, boolNotTrue hx, boolNotTrue hy, idKey, sumCmp]

theorem idCmp_refl (x : Str) : idCmp x x = 0 := by simp [idCmp]

theorem idCmp_zero_iff_keys : ∀ x y, idCmp x y = 0 ↔ idKey x = idKey y := by
  intro x y
  rw [idCmp_eq_sumCmp]
  exact sumCmp_zero_iff _ _

theorem idCmp_antisym (x y : Str) : idCmp x y = -(idCmp y x) := by
  rw [idCmp_eq_sumCmp, idCmp_eq_sumCmp]
  exact sumCmp_antisym _ _

theorem idCmp_neg_trans (x y z : Str) :
    idCmp x y < 0 → idCmp y z < 0 → idCmp x z < 0 := by
  rw [idCmp_eq_sumCmp, idCmp_eq_sumCmp, idCmp_eq_sumCmp]
  exact sumCmp_neg_trans _ _ _

theorem idCmp_congr_left (x y z : Str) (h : idCmp x y = 0) : idCmp x z = idCmp y z := by
  rw [idCmp_eq_sumCmp, idCmp_eq_sumCmp, (idCmp_zero_iff_keys x y).mp h]

theorem preLoop_refl : ∀ l, preLoop l l = 0 := by
  intro l
  induction l with
  | nil => rfl
  | cons x xs ih => simp [preLoop, idCmp_refl, ih]

theorem preLoop_antisym : ∀ l r, preLoop l r = -(preLoop r l) := by
  intro l
  induction l with
  | nil =>
    intro r
    cases r with
    | nil => rfl
    | cons y ys => rfl
  | cons x xs ih =>
    intro r
    cases r with
    | nil => rfl
    | cons y ys =>
      simp only [preLoop]
      by_cases h : idCmp x y = 0
      · have h2 : idCmp y x = 0 := by rw [idCmp_antisym, h]; rfl
        simp [h, h2, ih ys]
      · have h2 : ¬ idCmp y x = 0 := by
          intro hc
          rw [idCmp_antisym, hc] at h
          exact h rfl
        simp [h, h2, idCmp_antisym x y]

theorem preLoop_zero_iff : ∀ l r, preLoop l r = 0 ↔ l.map idKey = r.map idKey := by
  intro l
  induction l with
  | nil =>
    intro r
    cases r with
    | nil => simp [preLoop]
    | cons y ys => simp [preLoop]
  | cons x xs ih =>
    intro r
    cases r with
    | nil => simp [preLoop]
    | cons y ys =>
      simp only [preLoop, List.map]
      by_cases h : idCmp x y = 0
      · simp [h, ih ys, (idCmp_zero_iff_keys x y).mp h]
      · simp only [if_neg h]
        constructor
        · intro hc
          exact absurd hc h
        · intro hc
          injection hc with hh ht
          exact absurd ((idCmp_zero_iff_keys x y).mpr hh) h

theorem preLoop_neg_trans : ∀ l m r, preLoop l m < 0 → preLoop m r < 0 → preLoop l r < 0 := by
  intro l
  induction l with
  | nil =>
    intro m r h1 h2
    cases m with
    | nil => simp [preLoop] at h1
    | cons y ys =>
      cases r with
      | nil => simp [preLoop] at h2
      | cons z zs => simp [preLoop]
  | cons x xs ih =>
    intro m r h1 h2
    cases m with
    | nil => simp [preLoop] at h1
    | cons y ys =>
      cases r with
      | nil => simp [preLoop] at h2
      | cons z zs =>
        simp only [preLoop] at h1 h2 ⊢
        by_cases e1 : idCmp x y = 0 <;> by_cases e2 : idCmp y z = 0
        · have e3 : idCmp x z = 0 := by
            rw [idCmp_congr_left x y z e1]
            exact e2
          rw [if_pos e1] at h1
          rw [if_pos e2] at h2
          rw [if_pos e3]
          exact ih ys zs h1 h2
        · have e3 : idCmp x z = idCmp y z := idCmp_congr_left x y z e1
          rw [if_neg e2] at h2
          have e4 : ¬ idCmp x z = 0 := by rw [e3]; exact e2
          rw [if_neg e4, e3]
          exact h2
        · have hk : idKey y = idKey z := (idCmp_zero_iff_keys y z).mp e2
          have e3 : idCmp x z = idCmp x y := by
            rw [idCmp_eq_sumCmp, idCmp_eq_sumCmp, hk]
          rw [if_neg e1] at h1
          have e4 : ¬ idCmp x z = 0 := by rw [e3]; exact e1
          rw [if_neg e4, e3]
          exact h1
        · rw [if_neg e1] at h1
          rw [if_neg e2] at h2
          have e5 := idCmp_neg_trans x y z h1 h2
          rw [if_neg (by omega)]
          exact e5

theorem comparePrerelease_refl : ∀ l, comparePrerelease l l = 0 := by
  intro l
  cases l with
  | nil => rfl
  | cons x xs => simp [comparePrerelease, preLoop_refl]

theorem comparePrerelease_antisym : ∀ l r, comparePrerelease l r = -(comparePrerelease r l) := by
  intro l r
  cases l with
  | nil =>
    cases r with
    | nil => rfl
    | cons y ys => rfl
  | cons x xs =>
    cases r with
    | nil => rfl
    | cons y ys =>
      simp only [comparePrerelease]
      simp [preLoop_antisym (x :: xs) (y :: ys)]

theorem comparePrerelease_zero_iff :
    ∀ l r, comparePrerelease l r = 0 ↔ l.map idKey = r.map idKey := by
  intro l r
  cases l with
  | nil =>
    cases r with
    | nil => simp [comparePrerelease]
    | cons y ys => simp [comparePrerelease]
  | cons x xs =>
    cases r with
    | nil => simp [comparePrerelease]
    | cons y ys =>
      simp only [comparePrerelease]
      simpa using preLoop_zero_iff (x :: xs) (y :: ys)

theorem comparePrerelease_neg_trans :
    ∀ l m r, comparePrerelease l m < 0 → comparePrerelease m r < 0 →
      comparePrerelease l r < 0 := by
  intro l m r h1 h2
  cases m with
  | nil =>
    cases r with
    | nil => simp [comparePrerelease] at h2
    | cons z zs => simp [comparePrerelease] at h2
  | cons y ys =>
    cases l with
    | nil => simp [comparePrerelease] at h1
    | cons x xs =>
      cases r with
      | nil => simp [comparePrerelease]
      | cons z zs =>
        simp only [comparePrerelease] at h1 h2 ⊢
        simp only [List.cons_ne_nil] at h1 h2 ⊢
        simp at h1 h2 ⊢
        exact preLoop_neg_trans (x :: xs) (y :: ys) (z :: zs) h1 h2

theorem coreLt_irrefl (a : SemanticVersion) : coreLt a a = false := by
  simp [coreLt]

theorem coreLt_asymm {a b : SemanticVersion} (h : coreLt a b = true) : coreLt b a = false := by
  simp only [coreLt, Bool.or_eq_true, Bool.and_eq_true, decide_eq_true_eq] at h ⊢
  simp only [Bool.or_eq_false_iff, Bool.and_eq_false_iff, decide_eq_false_iff_not]
  omega

theorem coreLt_conn {a b : SemanticVersion} (h1 : coreLt a b = false) (h2 : coreLt b a = false) :
    a.major = b.major ∧ a.minor = b.minor ∧ a.patch = b.patch := by
  simp only [coreLt, Bool.or_eq_false_iff, Bool.and_eq_false_iff,
    decide_eq_false_iff_not] at h1 h2
  omega

theorem coreLt_trans {a b c : SemanticVersion} (h1 : coreLt a b = true) (h2 : coreLt b c = true) :
    coreLt a c = true := by
  simp only [coreLt, Bool.or_eq_true, Bool.and_eq_true, decide_eq_true_eq] at h1 h2 ⊢
  omega

theorem compareTo_refl (a : SemanticVersion) : compareTo a a = 0 := by
  simp [compareTo, coreLt_irrefl, comparePrerelease_refl]

theorem compareTo_antisym (a b : SemanticVersion) : compareTo a b = -(compareTo b a) := by
  simp only [compareTo]
  by_cases h1 : coreLt a b = true
  · simp [h1, coreLt_asymm h1]
  · by_cases h2 : coreLt b a = true
    · simp [boolNotTrue h1, h2, coreLt_asymm h2]
    · simp [boolNotTrue h1, boolNotTrue h2, comparePrerelease_antisym a.prerelease b.prerelease]

theorem compareTo_neg_trans (a b c : SemanticVersion)
    (h1 : compareTo a b < 0) (h2 : compareTo b c < 0) : compareTo a c < 0 := by
  simp only [compareTo] at h1 h2 ⊢
  by_cases e1 : coreLt a b = true <;> by_cases e2 : coreLt b c = true
  · simp [coreLt_trans e1 e2]
  · rw [if_neg e2] at h2
    by_cases e3 : coreLt c b = true
    · rw [if_pos e3] at h2
      exact absurd h2 (by decide)
    · have hc := coreLt_conn (boolNotTrue e2) (boolNotTrue e3)
      have e4 : coreLt a c = true := by
        simp only [coreLt, Bool.or_eq_true, Bool.and_eq_true, decide_eq_true_eq] at e1 ⊢
        omega
      simp [e4]
  · rw [if_neg e1] at h1
    by_cases e3 : coreLt b a = true
    · rw [if_pos e3] at h1
      exact absurd h1 (by decide)
    · have hc := coreLt_conn (boolNotTrue e1) (boolNotTrue e3)
      have e4 : coreLt a c = true := by
        simp only [coreLt, Bool.or_eq_true, Bool.and_eq_true, decide_eq_true_eq] at e2 ⊢
        omega
      simp [e4]
  · rw [if_neg e1] at h1
    rw [if_neg e2] at h2
    by_cases e3 : coreLt b a = true
    · rw [if_pos e3] at h1
      exact absurd h1 (by decide)
    · by_cases e4 : coreLt c b = true
      · rw [if_pos e4] at h2
        exact absurd h2 (by decide)
      · rw [if_neg e3] at h1
        rw [if_neg e4] at h2
        have hab := coreLt_conn (boolNotTrue e1) (boolNotTrue e3)
        have hbc := coreLt_conn (boolNotTrue e2) (boolNotTrue e4)
        have e5 : coreLt a c = false := by
          simp only [coreLt, Bool.or_eq_false_iff, Bool.and_eq_false_iff,
            decide_eq_false_iff_not]
          omega
        have e6 : coreLt c a = false := by
          simp only [coreLt, Bool.or_eq_false_iff, Bool.and_eq_false_iff,
            decide_eq_false_iff_not]
          omega
        rw [e5, e6]
        simp only [Bool.false_eq_true, if_false]
        exact comparePrerelease_neg_trans a.prerelease b.prerelease c.prerelease h1 h2

theorem compareTo_zero_iff_keys (a b : SemanticVersion) :
    compareTo a b = 0 ↔
      (a.major = b.major ∧ a.minor = b.minor ∧ a.patch = b.patch ∧
        a.prerelease.map idKey = b.prerelease.map idKey) := by
  simp only [compareTo]
  by_cases e1 : coreLt a b = true
  · rw [if_pos e1]
    constructor
    · intro h
      exact absurd h (by decide)
    · intro h
      have : coreLt a b = false := by
        simp only [coreLt, Bool.or_eq_false_iff, Bool.and_eq_false_iff,
          decide_eq_false_iff_not]
        omega
      rw [e1] at this
      exact absurd this (by decide)
  · rw [if_neg e1]
    by_cases e2 : coreLt b a = true
    · rw [if_pos e2]
      constructor
      · intro h
        exact absurd h (by decide)
      · intro h
        have : coreLt b a = false := by
          simp only [coreLt, Bool.or_eq_false_iff, Bool.and_eq_false_iff,
            decide_eq_false_iff_not]
          omega
        rw [e2] at this
        exact absurd this (by decide)
    · rw [if_neg e2]
      have hc := coreLt_conn (boolNotTrue e1) (boolNotTrue e2)
      rw [comparePrerelease_zero_iff]
      constructor
      · intro h
        exact ⟨hc.1, hc.2.1, hc.2.2, h⟩
      · intro h
        exact h.2.2.2

/-!
Injectivity of the decimal value on digit strings without leading
zeros, which turns key equality into literal equality for valid
prerelease identifiers.
-/

/-- Digit values of the characters of a string, most significant first. -/
def digitsVal (s : Str) : List Nat := s.map (fun c => c.toNat - 48)

theorem char_isDigit_bounds {c : Char} (h : c.isDigit = true) :
    48 ≤ c.toNat ∧ c.toNat ≤ 57 := by
  simp [Char.isDigit] at h
  exact h

theorem char_digit_inj {c d : Char} (hc : c.isDigit = true) (hd : d.isDigit = true)
    (h : c.toNat - 48 = d.toNat - 48) : c = d := by
  have hcb := char_isDigit_bounds hc
  have hdb := char_isDigit_bounds hd
  have : c.toNat = d.toNat := by omega
  exact Char.eq_of_val_eq (UInt32.ext this)

theorem digitsVal_inj : ∀ x y : Str, x.all Char.isDigit = true → y.all Char.isDigit = true →
    digitsVal x = digitsVal y → x = y := by
  intro x
  induction x with
  | nil =>
    intro y _ _ h
    cases y with
    | nil => rfl
    | cons d ds => simp [digitsVal] at h
  | cons c cs ih =>
    intro y hx hy h
    cases y with
    | nil => simp [digitsVal] at h
    | cons d ds =>
      simp only [digitsVal, List.map] at h
      injection h with h1 h2
      simp only [List.all_cons, Bool.and_eq_true] at hx hy
      have hcd := char_digit_inj hx.1 hy.1 h1
      rw [hcd]
      exact congrArg (d :: ·) (ih ds hx.2 hy.2 h2)

theorem digitsVal_lt_ten {s : Str} (h : s.all Char.isDigit = true) :
    ∀ v ∈ (digitsVal s).reverse, v < 10 := by
  intro v hv
  rw [List.mem_reverse] at hv
  simp only [digitsVal, List.mem_map] at hv
  obtain ⟨c, hc, hcv⟩ := hv
  rw [List.all_eq_true] at h
  have := char_isDigit_bounds (h c hc)
  omega

theorem strToNat_foldl : ∀ (l : Str) (acc : Nat),
    List.foldl (fun a c => 10 * a + (c.toNat - 48)) acc l =
      acc * 10 ^ l.length + Nat.ofDigits 10 (digitsVal l).reverse := by
  intro l
  induction l with
  | nil =>
    intro acc
    simp [digitsVal, Nat.ofDigits]
  | cons c cs ih =>
    intro acc
    simp only [List.foldl, digitsVal, List.map, List.reverse_cons]
    rw [ih (10 * acc + (c.toNat - 48))]
    rw [Nat.ofDigits_append]
    simp only [List.length_reverse, List.length_map, Nat.ofDigits_cons, Nat.ofDigits_nil,
      List.length_cons, digitsVal]
    ring

theorem strToNat_ofDigits (s : Str) :
    strToNat s = Nat.ofDigits 10 (digitsVal s).reverse := by
  simp only [strToNat]
  rw [strToNat_foldl s 0]
  simp

theorem strToNat_head_bound {c : Char} (cs : Str) (_hd : c.isDigit = true) :
    10 ^ cs.length * (c.toNat - 48) ≤ strToNat (c :: cs) := by
  rw [strToNat_ofDigits]
  simp only [digitsVal, List.map, List.reverse_cons]
  rw [Nat.ofDigits_append]
  simp only [Nat.ofDigits_cons, Nat.ofDigits_nil, List.length_reverse, List.length_map,
    Nat.mul_zero, Nat.add_zero]
  omega

theorem strToNat_zero_head {c : Char} {cs : Str}
    (hall : (c :: cs).all Char.isDigit = true) (h : strToNat (c :: cs) = 0) : c = '0' := by
  simp only [List.all_cons, Bool.and_eq_true] at hall
  have hb := strToNat_head_bound cs hall.1
  rw [h] at hb
  have hp : 0 < 10 ^ cs.length := Nat.pos_pow_of_pos _ (by omega)
  have : c.toNat - 48 = 0 := by
    by_contra hne
    have : 1 ≤ c.toNat - 48 := by omega
    nlinarith
  have hcb := char_isDigit_bounds hall.1
  have : c.toNat = 48 := by omega
  exact Char.eq_of_val_eq (UInt32.ext this)

theorem identNoLeadingZero_cases {s : Str} (hdig : strIsDigit s = true)
    (h : identNoLeadingZero s = true) : s.length ≤ 1 ∨ s.headD ' ' ≠ '0' := by
  unfold identNoLeadingZero at h
  rw [hdig] at h
  simpa using h

theorem strToNat_inj_digits :
    ∀ x y : Str, strIsDigit x = true → strIsDigit y = true →
      identNoLeadingZero x = true → identNoLeadingZero y = true →
      strToNat x = strToNat y → x = y := by
  have hzcase : ∀ s : Str, strIsDigit s = true → identNoLeadingZero s = true →
      strToNat s = 0 → s = ['0'] := by
    intro s hs hnz hv
    cases s with
    | nil => simp [strIsDigit] at hs
    | cons c cs =>
      simp only [strIsDigit, List.isEmpty_cons, Bool.not_false, Bool.true_and] at hs
      have hc := strToNat_zero_head hs hv
      subst hc
      cases cs with
      | nil => rfl
      | cons d ds =>
        rcases identNoLeadingZero_cases (by simp [strIsDigit, hs]) hnz with hlen | hhead
        · simp at hlen
        · exact absurd rfl hhead
  have key : ∀ s : Str, strIsDigit s = true → identNoLeadingZero s = true →
      strToNat s ≠ 0 → Nat.digits 10 (strToNat s) = (digitsVal s).reverse := by
    intro s hs hnz hv
    rw [strToNat_ofDigits]
    apply Nat.digits_ofDigits 10 (by omega)
    · exact digitsVal_lt_ten (by
        simp only [strIsDigit, Bool.and_eq_true] at hs
        exact hs.2)
    · intro hne
      cases s with
      | nil => simp [strIsDigit] at hs
      | cons c cs =>
        simp only [digitsVal, List.map, List.reverse_cons]
        rw [List.getLast_concat]
        simp only [strIsDigit, List.isEmpty_cons, Bool.not_false, Bool.true_and,
          List.all_cons, Bool.and_eq_true] at hs
        intro hzero
        have hcb := char_isDigit_bounds hs.1
        have hc0 : c = '0' := by
          have : c.toNat = 48 := by omega
          exact Char.eq_of_val_eq (UInt32.ext this)
        subst hc0
        rcases identNoLeadingZero_cases (by simp [strIsDigit, hs.1, hs.2]) hnz with hlen | hhead
        · have hcs : cs = [] := by
            cases cs with
            | nil => rfl
            | cons d ds => simp at hlen
          subst hcs
          exact absurd (by simp [strToNat]) hv
        · exact absurd rfl hhead
  intro x y hx hy hnx hny hval
  by_cases hz : strToNat x = 0
  · have hzy : strToNat y = 0 := by rw [← hval]; exact hz
    rw [hzcase x hx hnx hz, hzcase y hy hny hzy]
  · have hzy : strToNat y ≠ 0 := by rw [← hval]; exact hz
    have d1 := key x hx hnx hz
    have d2 := key y hy hny hzy
    rw [hval] at d1
    rw [d1] at d2
    have hrev : digitsVal x = digitsVal y := by
      have := congrArg List.reverse d2
      simpa using this
    apply digitsVal_inj x y
    · simp only [strIsDigit, Bool.and_eq_true] at hx
      exact hx.2
    · simp only [strIsDigit, Bool.and_eq_true] at hy
      exact hy.2
    · exact hrev

theorem idKey_inj {x y : Str} (hnx : identNoLeadingZero x = true)
    (hny : identNoLeadingZero y = true) (h : idKey x = idKey y) : x = y := by
  unfold idKey at h
  by_cases dx : strIsDigit x = true <;> by_cases dy : strIsDigit y = true
  · rw [if_pos dx, if_pos dy] at h
    injection h with h
    exact strToNat_inj_digits x y dx dy hnx hny h
  · rw [if_pos dx, if_neg dy] at h
    exact absurd h (by simp)
  · rw [if_neg dx, if_pos dy] at h
    exact absurd h (by simp)
  · rw [if_neg dx, if_neg dy] at h
    exact Sum.inr.inj h

theorem mapIdKey_inj : ∀ l m : List Str, l.all identNoLeadingZero = true →
    m.all identNoLeadingZero = true → l.map idKey = m.map idKey → l = m := by
  intro l
  induction l with
  | nil =>
    intro m _ _ h
    cases m with
    | nil => rfl
    | cons y ys => simp at h
  | cons x xs ih =>
    intro m hl hm h
    cases m with
    | nil => simp at h
    | cons y ys =>
      simp only [List.map] at h
      injection h with h1 h2
      simp only [List.all_cons, Bool.and_eq_true] at hl hm
      rw [idKey_inj hl.1 hm.1 h1]
      exact congrArg (y :: ·) (ih ys hl.2 hm.2 h2)

theorem preLoop_self_append : ∀ (l t : List Str), t ≠ [] → preLoop l (l ++ t) = -1 := by
  intro l t ht
  induction l with
  | nil =>
    cases t with
    | nil => exact absurd rfl ht
    | cons u us => rfl
  | cons x xs ih => simp [preLoop, idCmp_refl, ih]

/-- C4: compare_to, the precedence comparison behind compare_versions,
is a total order that ignores build metadata and follows the documented
rules: cores compare lexicographically as integer triples, a release
outranks any prerelease of the same core, prerelease identifiers
compare pairwise (numeric by value, numeric below non-numeric,
non-numeric by code point) with the shorter list smaller on a shared
prefix, and versions differing only in build metadata compare equal.
The conjuncts state: build irrelevance; reflexivity; antisymmetry;
transitivity; on versions whose numeric prerelease identifiers have no
leading zeros (every parsed version), comparing equal is exactly
agreeing on core and prerelease; the core rule; the characterization of
the core order; the release-beats-prerelease rule; the three pairwise
identifier rules; the pairwise unfolding; and the shorter-prefix rule. -/
theorem C4_compare_versions_total_order :
    (∀ (a b : SemanticVersion) (b1 b2 : List Str),
        compareTo { a with build := b1 } { b with build := b2 } = compareTo a b) ∧
    (∀ a : SemanticVersion, compareTo a a = 0) ∧
    (∀ a b : SemanticVersion, compareTo a b = -(compareTo b a)) ∧
    (∀ a b c : SemanticVersion, compareTo a b < 0 → compareTo b c < 0 → compareTo a c < 0) ∧
    (∀ a b : SemanticVersion,
        a.prerelease.all identNoLeadingZero = true →
        b.prerelease.all identNoLeadingZero = true →
        (compareTo a b = 0 ↔ a.major = b.major ∧ a.minor = b.minor ∧ a.patch = b.patch ∧
          a.prerelease = b.prerelease)) ∧
    (∀ a b : SemanticVersion, coreLt a b = true → compareTo a b = -1) ∧
    (∀ a b : SemanticVersion,
        coreLt a b = true ↔ (a.major < b.major ∨ (a.major = b.major ∧
          (a.minor < b.minor ∨ (a.minor = b.minor ∧ a.patch < b.patch))))) ∧
    (∀ a b : SemanticVersion, a.major = b.major → a.minor = b.minor → a.patch = b.patch →
        a.prerelease = [] → b.prerelease ≠ [] → compareTo a b = 1) ∧
    (∀ x y : Str, strIsDigit x = true → strIsDigit y = true → strToNat x < strToNat y →
        idCmp x y = -1) ∧
    (∀ x y : Str, strIsDigit x = true → strIsDigit y = false → idCmp x y = -1) ∧
    (∀ x y : Str, strIsDigit x = false → strIsDigit y = false → strLt x y = true →
        idCmp x y = -1) ∧
    (∀ (x y : Str) (l m : List Str), comparePrerelease (x :: l) (y :: m) =
        if idCmp x y = 0 then preLoop l m else idCmp x y) ∧
    (∀ (a b : SemanticVersion) (t : List Str), a.major = b.major → a.minor = b.minor →
        a.patch = b.patch → a.prerelease ≠ [] → t ≠ [] → b.prerelease = a.prerelease ++ t →
        compareTo a b = -1) := by
  refine ⟨?_, compareTo_refl, compareTo_antisym, compareTo_neg_trans, ?_, ?_, ?_, ?_, ?_, ?_,
    ?_, ?_, ?_⟩
  · intro a b b1 b2
    rfl
  · intro a b ha hb
    rw [compareTo_zero_iff_keys]
    constructor
    · intro h
      exact ⟨h.1, h.2.1, h.2.2.1, mapIdKey_inj _ _ ha hb h.2.2.2⟩
    · intro h
      exact ⟨h.1, h.2.1, h.2.2.1, by rw [h.2.2.2]⟩
  · intro a b h
    simp [compareTo, h]
  · intro a b
    simp only [coreLt, Bool.or_eq_true, Bool.and_eq_true, decide_eq_true_eq]
  · intro a b h1 h2 h3 hpa hpb
    have e1 : coreLt a b = false := by
      simp only [coreLt, Bool.or_eq_false_iff, Bool.and_eq_false_iff, decide_eq_false_iff_not]
      omega
    have e2 : coreLt b a = false := by
      simp only [coreLt, Bool.or_eq_false_iff, Bool.and_eq_false_iff, decide_eq_false_iff_not]
      omega
    simp only [compareTo, e1, e2]
    simp only [Bool.false_eq_true, if_false]
    rw [hpa]
    cases hb : b.prerelease with
    | nil => exact absurd hb hpb
    | cons u us => simp [comparePrerelease]
  · intro x y hx hy hlt
    have hne : x ≠ y := by
      intro he
      rw [he] at hlt
      omega
    simp [idCmp, hne, hx, hy, hlt, Nat.lt_asymm hlt]
  · intro x y hx hy
    have hne : x ≠ y := by
      intro he
      rw [he] at hx
      rw [hx] at hy
      exact absurd hy (by simp)
    simp [idCmp, hne, hx, hy]
  · intro x y hx hy hlt
    have hne : x ≠ y := by
      intro he
      rw [he] at hlt
      rw [strLt_irrefl] at hlt
      exact absurd hlt (by simp)
    simp [idCmp, hne, hx, hy, hlt]
  · intro x y l m
    simp [comparePrerelease, preLoop]
  · intro a b t h1 h2 h3 hpre ht happ
    have e1 : coreLt a b = false := by
      simp only [coreLt, Bool.or_eq_false_iff, Bool.and_eq_false_iff, decide_eq_false_iff_not]
      omega
    have e2 : coreLt b a = false := by
      simp only [coreLt, Bool.or_eq_false_iff, Bool.and_eq_false_iff, decide_eq_false_iff_not]
      omega
    simp only [compareTo, e1, e2]
    simp only [Bool.false_eq_true, if_false]
    rw [happ]
    have hab : a.prerelease ++ t ≠ [] := by
      cases hpp : a.prerelease with
      | nil => exact absurd hpp hpre
      | cons u us => simp
    simp only [comparePrerelease]
    rw [if_neg (by simp [hpre]), if_neg (by simp [hpre]), if_neg (by simp [hab])]
    exact preLoop_self_append a.prerelease t ht

/-- C5: caret ranges desugar to the documented pair of comparators.
The first conjunct restates the upper-bound computation of the code as
the formula of the specification table: U is (X+1).0.0 when X is
positive, else 0.(Y+1).0 when Y is positive, else 0.0.(Z+1).  The
second conjunct shows a caret token parses to exactly the two
comparators at-least-base and below-U.  The third shows matching that
pair is the conjunction of the two comparator tests.  The last is the
quoted instance: for every version v the range caret-1.2.3 is
equivalent to the range at-least-1.2.3-below-2.0.0. -/
theorem C5_caret_range_equivalence :
    (∀ base : SemanticVersion, caretUpperBound base =
      if 0 < base.major then
        { major := base.major + 1, minor := 0, patch := 0, prerelease := [], build := [] }
      else if 0 < base.minor then
        { major := 0, minor := base.minor + 1, patch := 0, prerelease := [], build := [] }
      else
        { major := 0, minor := 0, patch := base.patch + 1, prerelease := [], build := [] }) ∧
    (∀ (rest : Str) (base : SemanticVersion), parseVersion rest = some base →
      parseRangeToken ('^' :: rest) =
        some [⟨.geOp, base⟩, ⟨.ltOp, caretUpperBound base⟩]) ∧
    (∀ (base v : SemanticVersion),
      rangeMatches ⟨[[⟨.geOp, base⟩, ⟨.ltOp, caretUpperBound base⟩]]⟩ v = true ↔
        (0 ≤ compareTo v base ∧ compareTo v (caretUpperBound base) < 0)) ∧
    (∀ v : SemanticVersion,
      satisfiesVersionRange v (pstr "^1.2.3") =
        satisfiesVersionRange v (pstr ">=1.2.3 <2.0.0")) := by
  refine ⟨?_, ?_, ?_, ?_⟩
  · intro base
    rfl
  · intro rest base h
    have hne : ('^' :: rest) ≠ pstr "*" := by
      intro hcontr
      injection hcontr with h1 h2
      exact absurd h1 (by decide)
    simp [parseRangeToken, hne, h]
  · intro base v
    simp [rangeMatches, compMatches]
  · intro v
    have h : parseVersionRange (pstr "^1.2.3") = parseVersionRange (pstr ">=1.2.3 <2.0.0") := by
      decide
    simp [satisfiesVersionRange, h]

/-!
Dependency resolver, translated from src/promptpm/core/resolver.py.
The registry is abstracted as the list of installed candidates it
returns for a name; paths are opaque strings (the registry hands out
absolute paths, so the os.path.abspath in the code is the identity
here).
-/

/-- A module installed in the local registry. -/
structure InstalledModule where
  name : Str
  version : Str
  path : Str
deriving DecidableEq

/-- Normalized dependency declaration. -/
structure DependencySpec where
  name : Str
  versionRange : Str
deriving DecidableEq

/-- Resolved dependency record. -/
structure ResolvedDependency where
  name : Str
  version : Str
  path : Str
deriving DecidableEq

/-- The DependencyError raises of registry and resolver, one constructor
per message template; constructors carry the data interpolated into the
message.  outOfFuel is the artificial recursion bound of the embedding
and never occurs in runs that the theorems consider. -/
inductive DepErr where
  | dependencyNotFound (parent name versionRange : Str)
  | invalidSemver (name versionRange : Str)
  | noMatchingVersion (parent name versionRange : Str)
  | cyclicDependency (path : List Str)
  | loadFailed (path : Str)
  | outOfFuel
deriving DecidableEq

/-- The comparator passed to the candidate sort, a model of the private
compare_candidate_version function: SemVer precedence first, then the
raw version string as a deterministic tie-break. -/
def compareCandidateVersion (l r : SemanticVersion × InstalledModule) : Int :=
  let c := compareTo l.1 r.1
  if c ≠ 0 then c
  else if strLt l.2.version r.2.version then -1
  else if strLt r.2.version l.2.version then 1
  else 0

/-- Boolean order used by the sort model. -/
def candLe (a b : SemanticVersion × InstalledModule) : Bool :=
  decide (compareCandidateVersion a b ≤ 0)

/-- The filtering loop of select_installed_version: parse every
candidate version, keep those satisfying the range, and abort with the
wrapped error on the first SemVerError. -/
def collectMatching (name versionRange : Str) :
    List InstalledModule → Except DepErr (List (SemanticVersion × InstalledModule))
  | [] => .ok []
  | c :: cs =>
    match parseVersion c.version with
    | none => .error (.invalidSemver name versionRange)
    | some sv =>
      match satisfiesVersionRange sv versionRange with
      | none => .error (.invalidSemver name versionRange)
      | some sat =>
        (collectMatching name versionRange cs).map
          (fun rest => if sat then (sv, c) :: rest else rest)

/-- Model of the private select_installed_version method, over the
candidate list the registry returns for the name. -/
def selectInstalledVersion (name versionRange parent : Str)
    (candidates : List InstalledModule) : Except DepErr InstalledModule :=
  if candidates = [] then .error (.dependencyNotFound parent name versionRange)
  else
    match collectMatching name versionRange candidates with
    | .error e => .error e
    | .ok matching =>
      match matching with
      | [] => .error (.noMatchingVersion parent name versionRange)
      | m :: ms => .ok (((pySort candLe (m :: ms)).getLastD m).2)

theorem compareTo_congr_left {a b : SemanticVersion} (h : compareTo a b = 0) :
    ∀ c, compareTo a c = compareTo b c := by
  intro c
  rw [compareTo_zero_iff_keys] at h
  obtain ⟨h1, h2, h3, h4⟩ := h
  have hcore1 : coreLt a c = coreLt b c := by
    simp only [coreLt, h1, h2, h3]
  have hcore2 : coreLt c a = coreLt c b := by
    simp only [coreLt, h1, h2, h3]
  have hpre : comparePrerelease a.prerelease c.prerelease =
      comparePrerelease b.prerelease c.prerelease := by
    have hnil : a.prerelease = [] ↔ b.prerelease = [] := by
      constructor
      · intro hx
        rw [hx] at h4
        cases hb : b.prerelease with
        | nil => rfl
        | cons u us =>
          rw [hb] at h4
          simp at h4
      · intro hx
        rw [hx] at h4
        cases hb2 : a.prerelease with
        | nil => rfl
        | cons u us =>
          rw [hb2] at h4
          simp at h4
    have hloop : ∀ r, preLoop a.prerelease r = preLoop b.prerelease r := by
      have general : ∀ l l2 r : List Str, l.map idKey = l2.map idKey →
          preLoop l r = preLoop l2 r := by
        intro l
        induction l with
        | nil =>
          intro l2 r h
          cases l2 with
          | nil => rfl
          | cons u us => simp at h
        | cons x xs ih =>
          intro l2 r h
          cases l2 with
          | nil => simp at h
          | cons u us =>
            simp only [List.map] at h
            injection h with hh ht
            cases r with
            | nil => rfl
            | cons w ws =>
              simp only [preLoop]
              have hx : idCmp x w = idCmp u w := by
                rw [idCmp_eq_sumCmp, idCmp_eq_sumCmp, hh]
              rw [hx, ih us ws ht]
      intro r
      exact general a.prerelease b.prerelease r h4
    by_cases hae : a.prerelease = []
    · have hbe : b.prerelease = [] := hnil.mp hae
      rw [hae, hbe]
    · have hbe : b.prerelease ≠ [] := fun hx => hae (hnil.mpr hx)
      by_cases hc : c.prerelease = []
      · simp [comparePrerelease, hae, hbe, hc]
      · simp [comparePrerelease, hae, hbe, hc, hloop c.prerelease]
  simp only [compareTo, hcore1, hcore2, hpre]

theorem compareCandidateVersion_refl (a : SemanticVersion × InstalledModule) :
    compareCandidateVersion a a = 0 := by
  simp [compareCandidateVersion, compareTo_refl, strLt_irrefl]

theorem compareCandidateVersion_antisym (a b : SemanticVersion × InstalledModule) :
    compareCandidateVersion a b = -(compareCandidateVersion b a) := by
  simp only [compareCandidateVersion]
  by_cases h : compareTo a.1 b.1 = 0
  · have h2 : compareTo b.1 a.1 = 0 := by
      rw [compareTo_antisym, h]
      rfl
    by_cases h3 : strLt a.2.version b.2.version = true
    · simp [h, h2, h3, strLt_asymm _ _ h3]
    · by_cases h4 : strLt b.2.version a.2.version = true
      · simp [h, h2, boolNotTrue h3, h4]
      · simp [h, h2, boolNotTrue h3, boolNotTrue h4]
  · have h2 : compareTo b.1 a.1 ≠ 0 := by
      rw [compareTo_antisym]
      omega
    rw [if_pos (by simpa using h), if_pos (by simpa using h2), compareTo_antisym]

theorem candLe_refl (a : SemanticVersion × InstalledModule) : candLe a a = true := by
  simp [candLe, compareCandidateVersion_refl]

theorem candLe_total (a b : SemanticVersion × InstalledModule) :
    (candLe a b || candLe b a) = true := by
  simp only [candLe, Bool.or_eq_true, decide_eq_true_eq]
  have := compareCandidateVersion_antisym a b
  omega

theorem candLe_trans (a b c : SemanticVersion × InstalledModule)
    (h1 : candLe a b = true) (h2 : candLe b c = true) : candLe a c = true := by
  simp only [candLe, decide_eq_true_eq] at h1 h2 ⊢
  simp only [compareCandidateVersion] at h1 h2 ⊢
  by_cases e1 : compareTo a.1 b.1 = 0 <;> by_cases e2 : compareTo b.1 c.1 = 0
  · have e3 : compareTo a.1 c.1 = 0 := by
      rw [compareTo_congr_left e1]
      exact e2
    rw [if_neg (by simp [e1])] at h1
    rw [if_neg (by simp [e2])] at h2
    rw [if_neg (by simp [e3])]
    have hle1 : strLe a.2.version b.2.version = true := by
      simp only [strLe]
      by_cases hx : strLt b.2.version a.2.version = true
      · rw [if_neg (by rw [strLt_asymm _ _ hx]; simp), if_pos hx] at h1
        exact absurd h1 (by decide)
      · simp [boolNotTrue hx]
    have hle2 : strLe b.2.version c.2.version = true := by
      simp only [strLe]
      by_cases hx : strLt c.2.version b.2.version = true
      · rw [if_neg (by rw [strLt_asymm _ _ hx]; simp), if_pos hx] at h2
        exact absurd h2 (by decide)
      · simp [boolNotTrue hx]
    have hle3 := strLe_trans _ _ _ hle1 hle2
    simp only [strLe, Bool.not_eq_true'] at hle3
    rw [hle3]
    by_cases hy : strLt a.2.version c.2.version = true
    · simp [hy]
    · simp [boolNotTrue hy]
  · have e3 : compareTo a.1 c.1 = compareTo b.1 c.1 := compareTo_congr_left e1 c.1
    rw [if_pos (by simp [e2])] at h2
    rw [if_pos (by rw [e3]; simp [e2]), e3]
    exact h2
  · have e3 : compareTo a.1 c.1 = compareTo a.1 b.1 := by
      have h4 : compareTo b.1 c.1 = 0 := e2
      have h5 : compareTo c.1 b.1 = 0 := by
        rw [compareTo_antisym, h4]
        rfl
      have := compareTo_congr_left h5 a.1
      rw [compareTo_antisym a.1 c.1, this, ← compareTo_antisym]
    rw [if_pos (by simp [e1])] at h1
    rw [if_pos (by rw [e3]; simp [e1]), e3]
    exact h1
  · rw [if_pos (by simp [e1])] at h1
    rw [if_pos (by simp [e2])] at h2
    have hlt1 : compareTo a.1 b.1 < 0 := by omega
    have hlt2 : compareTo b.1 c.1 < 0 := by omega
    have hlt3 := compareTo_neg_trans a.1 b.1 c.1 hlt1 hlt2
    rw [if_pos (by omega)]
    omega

theorem collectMatching_sound (name range : Str) :
    ∀ (cands : List InstalledModule) (matching : List (SemanticVersion × InstalledModule)),
      collectMatching name range cands = .ok matching →
      ∀ p ∈ matching, p.2 ∈ cands ∧ parseVersion p.2.version = some p.1 ∧
        satisfiesVersionRange p.1 range = some true := by
  intro cands
  induction cands with
  | nil =>
    intro matching h p hp
    simp only [collectMatching] at h
    injection h with h
    rw [← h] at hp
    simp at hp
  | cons c cs ih =>
    intro matching h p hp
    cases hpv : parseVersion c.version with
    | none =>
      simp only [collectMatching, hpv] at h
      exact absurd h (by simp)
    | some sv =>
      cases hsat : satisfiesVersionRange sv range with
      | none =>
        simp only [collectMatching, hpv, hsat] at h
        exact absurd h (by simp)
      | some sat =>
        cases hrec : collectMatching name range cs with
        | error e =>
          simp only [collectMatching, hpv, hsat, hrec, Except.map] at h
          exact absurd h (by simp)
        | ok rest =>
          simp only [collectMatching, hpv, hsat, hrec, Except.map, Except.ok.injEq] at h
          by_cases hs : sat = true
          · rw [if_pos hs] at h
            rw [← h] at hp
            rcases List.mem_cons.mp hp with hpc | hpr
            · rw [hpc]
              refine ⟨by simp, by simpa using hpv, ?_⟩
              rw [hs] at hsat
              simpa using hsat
            · have := ih rest hrec p hpr
              exact ⟨List.mem_cons_of_mem c this.1, this.2.1, this.2.2⟩
          · rw [if_neg hs] at h
            rw [← h] at hp
            have := ih rest hrec p hp
            exact ⟨List.mem_cons_of_mem c this.1, this.2.1, this.2.2⟩

theorem collectMatching_complete (name range : Str) :
    ∀ (cands : List InstalledModule) (matching : List (SemanticVersion × InstalledModule)),
      collectMatching name range cands = .ok matching →
      ∀ c ∈ cands, ∀ svc, parseVersion c.version = some svc →
        satisfiesVersionRange svc range = some true → (svc, c) ∈ matching := by
  intro cands
  induction cands with
  | nil =>
    intro matching _ c hc
    simp at hc
  | cons c0 cs ih =>
    intro matching h c hc svc hpv hsat
    rcases List.mem_cons.mp hc with hcc | hcs
    · subst hcc
      cases hrec : collectMatching name range cs with
      | error e =>
        simp only [collectMatching, hpv, hsat, hrec, Except.map] at h
        exact absurd h (by simp)
      | ok rest =>
        simp only [collectMatching, hpv, hsat, hrec, Except.map, if_pos,
          Except.ok.injEq] at h
        rw [← h]
        simp
    · cases hpv0 : parseVersion c0.version with
      | none =>
        simp only [collectMatching, hpv0] at h
        exact absurd h (by simp)
      | some sv0 =>
        cases hsat0 : satisfiesVersionRange sv0 range with
        | none =>
          simp only [collectMatching, hpv0, hsat0] at h
          exact absurd h (by simp)
        | some sat0 =>
          cases hrec : collectMatching name range cs with
          | error e =>
            simp only [collectMatching, hpv0, hsat0, hrec, Except.map] at h
            exact absurd h (by simp)
          | ok rest =>
            simp only [collectMatching, hpv0, hsat0, hrec, Except.map,
              Except.ok.injEq] at h
            have hmem := ih rest hrec c hcs svc hpv hsat
            rw [← h]
            by_cases hs : sat0 = true
            · rw [if_pos hs]
              exact List.mem_cons_of_mem _ hmem
            · rw [if_neg hs]
              exact hmem

theorem collectMatching_none (name range : Str) :
    ∀ cands : List InstalledModule,
      (∀ c ∈ cands, ∃ svc, parseVersion c.version = some svc ∧
        satisfiesVersionRange svc range = some false) →
      collectMatching name range cands = .ok [] := by
  intro cands
  induction cands with
  | nil => intro _; rfl
  | cons c cs ih =>
    intro h
    obtain ⟨svc, hpv, hsat⟩ := h c (by simp)
    simp only [collectMatching, hpv, hsat]
    rw [ih (fun x hx => h x (List.mem_cons_of_mem c hx))]
    simp [Except.map]

/-- C3: candidate selection.  With no installed candidate the call
fails with the dependency-not-found error; when every candidate parses
but none satisfies the range it fails with the no-matching-version
error; and a successful selection returns an installed candidate whose
version satisfies the range and that is maximal among all satisfying
candidates: every other satisfying candidate is either strictly below
it in SemVer precedence or ties in precedence with a raw version string
that is not lexicographically greater. -/
theorem C3_select_installed_version :
    (∀ name range parent : Str,
      selectInstalledVersion name range parent [] =
        .error (.dependencyNotFound parent name range)) ∧
    (∀ (name range parent : Str) (cands : List InstalledModule), cands ≠ [] →
      (∀ c ∈ cands, ∃ svc, parseVersion c.version = some svc ∧
        satisfiesVersionRange svc range = some false) →
      selectInstalledVersion name range parent cands =
        .error (.noMatchingVersion parent name range)) ∧
    (∀ (name range parent : Str) (cands : List InstalledModule) (m : InstalledModule),
      selectInstalledVersion name range parent cands = .ok m →
      m ∈ cands ∧
      (∃ sv, parseVersion m.version = some sv ∧ satisfiesVersionRange sv range = some true ∧
        ∀ c ∈ cands, ∀ svc, parseVersion c.version = some svc →
          satisfiesVersionRange svc range = some true →
          (compareTo svc sv < 0 ∨
            (compareTo svc sv = 0 ∧ strLe c.version m.version = true)))) := by
  refine ⟨?_, ?_, ?_⟩
  · intro name range parent
    rfl
  · intro name range parent cands hne hnone
    rw [selectInstalledVersion, if_neg hne]
    rw [collectMatching_none name range cands hnone]
  · intro name range parent cands m hsel
    by_cases hne : cands = []
    · rw [selectInstalledVersion, if_pos hne] at hsel
      exact absurd hsel (by simp)
    · cases hcol : collectMatching name range cands with
      | error e =>
        rw [selectInstalledVersion, if_neg hne] at hsel
        rw [hcol] at hsel
        exact absurd hsel (by simp)
      | ok matching =>
        cases hm : matching with
        | nil =>
          rw [selectInstalledVersion, if_neg hne] at hsel
          rw [hm] at hcol
          rw [hcol] at hsel
          exact absurd hsel (by simp)
        | cons m0 ms =>
          rw [hm] at hcol
          rw [selectInstalledVersion, if_neg hne] at hsel
          rw [hcol] at hsel
          simp only [Except.ok.injEq] at hsel
          set chosen := (pySort candLe (m0 :: ms)).getLastD m0 with hchosen
          have hchmem : chosen ∈ m0 :: ms := by
            rw [hchosen]
            have := getLastD_mem m0 (pySort candLe (m0 :: ms)) (pySort_ne_nil candLe m0 ms)
            exact (mem_pySort candLe _ _).mp this
          have hchsound := collectMatching_sound name range cands (m0 :: ms) hcol chosen hchmem
          have hmax : ∀ p ∈ (m0 :: ms), candLe p chosen = true := by
            intro p hp
            have hsorted := pairwise_pySort candLe candLe_trans candLe_total (m0 :: ms)
            have hmem2 : p ∈ pySort candLe (m0 :: ms) := (mem_pySort candLe _ _).mpr hp
            exact pairwise_le_getLastD candLe m0 candLe_refl _ hsorted p hmem2
          refine ⟨by rw [← hsel]; exact hchsound.1, chosen.1, ?_, ?_, ?_⟩
          · rw [← hsel]
            exact hchsound.2.1
          · exact hchsound.2.2
          · intro c hc svc hpv hsat
            have hmemc := collectMatching_complete name range cands (m0 :: ms) hcol c hc svc hpv hsat
            have hle := hmax (svc, c) hmemc
            simp only [candLe, decide_eq_true_eq, compareCandidateVersion] at hle
            by_cases hz : compareTo svc chosen.1 = 0
            · right
              refine ⟨hz, ?_⟩
              rw [if_neg (by simpa using hz)] at hle
              rw [← hsel]
              simp only [strLe]
              by_cases hlt : strLt chosen.2.version c.version = true
              · rw [if_neg, if_pos hlt] at hle
                · exact absurd hle (by decide)
                · rw [strLt_asymm _ _ hlt]
                  simp
              · simp [boolNotTrue hlt]
            · left
              rw [if_pos (by simpa using hz)] at hle
              omega

/-!
The recursive visit of DependencyResolver.  The loader pipeline
(load_prompt_module, validate_prompt_module, _parse_dependencies) is
abstracted as the world function from module paths to parsed dependency
lists (none models any raised loading or validation error); the
registry is abstracted as its list_by_name function.  The recursion of
the code is bounded by the cycle check, so the embedding carries an
explicit fuel; runs that return ok never hit the fuel bound.  Errors
abort the whole resolution, so the visiting pop in the finally block is
observable only on the ok path, where it is the dropLast below.
-/

/-- The collaborators the resolver sees. -/
structure ResolverCtx where
  world : Str → Option (List DependencySpec)
  listByName : Str → List InstalledModule

/-- The name-at-version identifier the visit bookkeeping uses. -/
def nodeId (m : InstalledModule) : Str := m.name ++ pstr "@" ++ m.version

/-- The identifier of an emitted record. -/
def rid (r : ResolvedDependency) : Str := r.name ++ pstr "@" ++ r.version

/-- Identifiers of a resolved list, in order. -/
def ResolvedIds (l : List ResolvedDependency) : List Str := l.map rid

/-- Mutable state of the visit: emitted records, the visiting stack and
the visited set (kept as the append-ordered list of emissions). -/
structure VisitState where
  resolved : List ResolvedDependency
  visiting : List Str
  visited : List Str
deriving DecidableEq

/-- Selection of the best installed candidate for one dependency. -/
def selectDep (ctx : ResolverCtx) (parent : Str) (d : DependencySpec) :
    Except DepErr InstalledModule :=
  selectInstalledVersion d.name d.versionRange parent (ctx.listByName d.name)

/-- The dependency loop inside visit: select each dependency in order
and recurse through the function for one visit. -/
def visitList (visitF : InstalledModule → VisitState → Except DepErr VisitState)
    (ctx : ResolverCtx) (parent : Str) :
    List DependencySpec → VisitState → Except DepErr VisitState
  | [], st => .ok st
  | d :: ds, st =>
    match selectDep ctx parent d with
    | .error e => .error e
    | .ok m =>
      match visitF m st with
      | .error e => .error e
      | .ok st2 => visitList visitF ctx parent ds st2

/-- One unfolding of visit: the visited short-circuit, the cycle check
on the visiting stack, the push, the load of the module dependencies,
the dependency loop, the pop, and the emission of the module itself. -/
def visitStepR (visitF : InstalledModule → VisitState → Except DepErr VisitState)
    (ctx : ResolverCtx) (m : InstalledModule) (st : VisitState) :
    Except DepErr VisitState :=
  let node := nodeId m
  if node ∈ st.visited then .ok st
  else if node ∈ st.visiting then .error (.cyclicDependency (st.visiting ++ [node]))
  else
    match ctx.world m.path with
    | none => .error (.loadFailed m.path)
    | some deps =>
      match visitList visitF ctx node deps
          { st with visiting := st.visiting ++ [node] } with
      | .error e => .error e
      | .ok st2 =>
        .ok { resolved := st2.resolved ++ [⟨m.name, m.version, m.path⟩],
              visiting := st2.visiting.dropLast,
              visited := st2.visited ++ [node] }

/-- The private visit method, with fuel driving the recursion. -/
def visit (ctx : ResolverCtx) : Nat → InstalledModule → VisitState → Except DepErr VisitState
  | 0 => fun _ _ => .error .outOfFuel
  | fuel + 1 => visitStepR (visit ctx fuel) ctx

/-- Model of resolve_for_module: load and validate the root, then run
the dependency loop from clean state and return the emitted records. -/
def resolveForModule (ctx : ResolverCtx) (fuel : Nat) (modulePath : Str) :
    Except DepErr (List ResolvedDependency) :=
  match ctx.world modulePath with
  | none => .error (.loadFailed modulePath)
  | some deps =>
    match visitList (visit ctx fuel) ctx modulePath deps ⟨[], [], []⟩ with
    | .error e => .error e
    | .ok st => .ok st.resolved

/-- Reverse topological soundness of an emitted list: every entry was
loadable, and each of its dependencies selects an installed module
whose identifier already appears strictly earlier in the list. -/
def TopoAt (ctx : ResolverCtx) (out : List ResolvedDependency) : Prop :=
  ∀ (i : Nat) (h : i < out.length),
    ∃ deps, ctx.world (out.get ⟨i, h⟩).path = some deps ∧
      ∀ d ∈ deps, ∃ sel, selectDep ctx (rid (out.get ⟨i, h⟩)) d = .ok sel ∧
        nodeId sel ∈ ResolvedIds (out.take i)

/-- Every emitted record is an installed module of the registry. -/
def RegOk (ctx : ResolverCtx) (out : List ResolvedDependency) : Prop :=
  ∀ r ∈ out, ∃ (n : Str) (m : InstalledModule),
    m ∈ ctx.listByName n ∧ r = ⟨m.name, m.version, m.path⟩

/-- Invariant the visit maintains on its state. -/
def InvSt (ctx : ResolverCtx) (st : VisitState) : Prop :=
  st.visited = ResolvedIds st.resolved ∧
  (ResolvedIds st.resolved).Nodup ∧
  TopoAt ctx st.resolved ∧
  RegOk ctx st.resolved

/-- What one successful visit guarantees. -/
def VisitOut (ctx : ResolverCtx) (m : InstalledModule) (st st' : VisitState) : Prop :=
  InvSt ctx st' ∧ st'.visiting = st.visiting ∧
  (∃ t, st'.resolved = st.resolved ++ t) ∧
  nodeId m ∈ st'.visited ∧
  (∀ x ∈ st'.visited, x ∈ st.visited ∨ x ∉ st.visiting)

/-- What one successful dependency loop guarantees. -/
def ListOut (ctx : ResolverCtx) (parent : Str) (ds : List DependencySpec)
    (st st' : VisitState) : Prop :=
  InvSt ctx st' ∧ st'.visiting = st.visiting ∧
  (∃ t, st'.resolved = st.resolved ++ t) ∧
  (∀ d ∈ ds, ∃ sel, selectDep ctx parent d = .ok sel ∧ nodeId sel ∈ st'.visited) ∧
  (∀ x ∈ st'.visited, x ∈ st.visited ∨ x ∉ st.visiting)

theorem selectInstalledVersion_ok_mem {name range parent : Str}
    {cands : List InstalledModule} {m : InstalledModule}
    (h : selectInstalledVersion name range parent cands = .ok m) : m ∈ cands := by
  by_cases hne : cands = []
  · rw [selectInstalledVersion, if_pos hne] at h
    exact absurd h (by simp)
  · cases hcol : collectMatching name range cands with
    | error e =>
      rw [selectInstalledVersion, if_neg hne, hcol] at h
      exact absurd h (by simp)
    | ok matching =>
      cases hm : matching with
      | nil =>
        rw [hm] at hcol
        rw [selectInstalledVersion, if_neg hne, hcol] at h
        exact absurd h (by simp)
      | cons m0 ms =>
        rw [hm] at hcol
        rw [selectInstalledVersion, if_neg hne, hcol] at h
        simp only [Except.ok.injEq] at h
        have hchmem : (pySort candLe (m0 :: ms)).getLastD m0 ∈ m0 :: ms := by
          have := getLastD_mem m0 (pySort candLe (m0 :: ms)) (pySort_ne_nil candLe m0 ms)
          exact (mem_pySort candLe _ _).mp this
        have := collectMatching_sound name range cands (m0 :: ms) hcol _ hchmem
        rw [← h]
        exact this.1

theorem ResolvedIds_append (l t : List ResolvedDependency) :
    ResolvedIds (l ++ t) = ResolvedIds l ++ ResolvedIds t := by
  simp [ResolvedIds]

theorem TopoAt_append {ctx : ResolverCtx} {l : List ResolvedDependency}
    {r : ResolvedDependency} (hl : TopoAt ctx l)
    (hr : ∃ deps, ctx.world r.path = some deps ∧
      ∀ d ∈ deps, ∃ sel, selectDep ctx (rid r) d = .ok sel ∧
        nodeId sel ∈ ResolvedIds l) :
    TopoAt ctx (l ++ [r]) := by
  intro i h
  simp only [List.get_eq_getElem]
  by_cases hi : i < l.length
  · rw [List.getElem_append_left hi]
    rw [List.take_append_of_le_length (le_of_lt hi)]
    have := hl i hi
    simpa [List.get_eq_getElem] using this
  · have hieq : i = l.length := by
      simp only [List.length_append, List.length_cons, List.length_nil] at h
      omega
    rw [List.getElem_concat_length l r i hieq]
    rw [hieq, List.take_left]
    exact hr

theorem visitList_spec (ctx : ResolverCtx)
    (visitF : InstalledModule → VisitState → Except DepErr VisitState)
    (hF : ∀ m st st', (∃ n, m ∈ ctx.listByName n) → InvSt ctx st →
      visitF m st = .ok st' → VisitOut ctx m st st') :
    ∀ (parent : Str) (ds : List DependencySpec) (st st' : VisitState), InvSt ctx st →
      visitList visitF ctx parent ds st = .ok st' → ListOut ctx parent ds st st' := by
  intro parent ds
  induction ds with
  | nil =>
    intro st st' hinv h
    simp only [visitList, Except.ok.injEq] at h
    rw [← h]
    refine ⟨hinv, rfl, ⟨[], by simp⟩, by simp, ?_⟩
    intro x hx
    exact Or.inl hx
  | cons d ds ih =>
    intro st st' hinv h
    cases hsel : selectDep ctx parent d with
    | error e =>
      simp only [visitList, hsel] at h
      exact absurd h (by simp)
    | ok m =>
      cases hvf : visitF m st with
      | error e =>
        simp only [visitList, hsel, hvf] at h
        exact absurd h (by simp)
      | ok st2 =>
        simp only [visitList, hsel, hvf] at h
        have hmem : ∃ n, m ∈ ctx.listByName n :=
          ⟨d.name, selectInstalledVersion_ok_mem hsel⟩
        have hv := hF m st st2 hmem hinv hvf
        have hrest := ih st2 st' hv.1 h
        obtain ⟨hinv2, hvisg2, ⟨t2, ht2⟩, hnode2, hgrow2⟩ := hv
        obtain ⟨hinv3, hvisg3, ⟨t3, ht3⟩, hdeps3, hgrow3⟩ := hrest
        refine ⟨hinv3, by rw [hvisg3, hvisg2], ⟨t2 ++ t3, by rw [ht3, ht2, List.append_assoc]⟩,
          ?_, ?_⟩
        · intro dd hdd
          rcases List.mem_cons.mp hdd with hdd1 | hdd2
          · refine ⟨m, by rw [hdd1]; exact hsel, ?_⟩
            have hmono : ∀ x ∈ st2.visited, x ∈ st'.visited := by
              intro x hx
              rw [hinv3.1, ht3, ResolvedIds_append]
              rw [hinv2.1] at hx
              exact List.mem_append_left _ hx
            exact hmono (nodeId m) hnode2
          · exact hdeps3 dd hdd2
        · intro x hx
          rcases hgrow3 x hx with hx2 | hx2
          · rcases hgrow2 x hx2 with hx3 | hx3
            · exact Or.inl hx3
            · exact Or.inr hx3
          · rw [hvisg2] at hx2
            exact Or.inr hx2

theorem visit_spec (ctx : ResolverCtx) :
    ∀ (fuel : Nat) (m : InstalledModule) (st st' : VisitState),
      (∃ n, m ∈ ctx.listByName n) → InvSt ctx st →
      visit ctx fuel m st = .ok st' → VisitOut ctx m st st' := by
  intro fuel
  induction fuel with
  | zero =>
    intro m st st' _ _ h
    exact absurd h (by simp [visit])
  | succ fuel ih =>
    intro m st st' hm hinv h
    simp only [visit, visitStepR] at h
    by_cases h1 : nodeId m ∈ st.visited
    · rw [if_pos h1] at h
      simp only [Except.ok.injEq] at h
      rw [← h]
      refine ⟨hinv, rfl, ⟨[], by simp⟩, h1, fun x hx => Or.inl hx⟩
    · rw [if_neg h1] at h
      by_cases h2 : nodeId m ∈ st.visiting
      · rw [if_pos h2] at h
        exact absurd h (by simp)
      · rw [if_neg h2] at h
        cases hw : ctx.world m.path with
        | none =>
          simp only [hw] at h
          exact absurd h (by simp)
        | some deps =>
          simp only [hw] at h
          set st1 : VisitState := { st with visiting := st.visiting ++ [nodeId m] } with hst1
          have hinv1 : InvSt ctx st1 := hinv
          cases hloop : visitList (visit ctx fuel) ctx (nodeId m) deps st1 with
          | error e =>
            simp only [hloop] at h
            exact absurd h (by simp)
          | ok st2 =>
            simp only [hloop, Except.ok.injEq] at h
            have hlist := visitList_spec ctx (visit ctx fuel) (ih) (nodeId m) deps st1 st2
              hinv1 hloop
            obtain ⟨hinv2, hvis2, ⟨t2, ht2⟩, hdeps2, hgrow2⟩ := hlist
            have hnodenot2 : nodeId m ∉ st2.visited := by
              intro hcontr
              rcases hgrow2 (nodeId m) hcontr with hc1 | hc1
              · exact h1 hc1
              · exact hc1 (by simp [hst1])
            have hrec : (⟨m.name, m.version, m.path⟩ : ResolvedDependency) =
                (⟨m.name, m.version, m.path⟩ : ResolvedDependency) := rfl
            have hridnode : rid ⟨m.name, m.version, m.path⟩ = nodeId m := rfl
            refine ⟨⟨?_, ?_, ?_, ?_⟩, ?_, ?_, ?_, ?_⟩
            · rw [← h]
              simp only [ResolvedIds, List.map_append, List.map_cons, List.map_nil]
              rw [hinv2.1]
              simp [ResolvedIds, hridnode]
            · rw [← h]
              simp only []
              rw [ResolvedIds_append]
              rw [List.nodup_append]
              refine ⟨hinv2.2.1, by simp [ResolvedIds, hridnode], ?_⟩
              intro x hx hx2
              simp only [ResolvedIds, List.map_cons, List.map_nil, List.mem_cons,
                List.not_mem_nil] at hx2
              rcases hx2 with hx2 | hx2
              · rw [hx2, hridnode] at hx
                rw [hinv2.1] at hnodenot2
                exact hnodenot2 hx
              · exact hx2
            · rw [← h]
              simp only []
              refine TopoAt_append hinv2.2.2.1 ?_
              refine ⟨deps, hw, ?_⟩
              intro d hd
              obtain ⟨sel, hsel, hselmem⟩ := hdeps2 d hd
              refine ⟨sel, by rw [hridnode]; exact hsel, ?_⟩
              rw [← hinv2.1]
              exact hselmem
            · rw [← h]
              intro r hr
              simp only [List.mem_append, List.mem_cons, List.not_mem_nil, or_false] at hr
              rcases hr with hr | hr
              · exact hinv2.2.2.2 r hr
              · obtain ⟨n, hn⟩ := hm
                exact ⟨n, m, hn, hr⟩
            · rw [← h]
              simp only []
              rw [hvis2]
              simp [hst1, List.dropLast_concat]
            · refine ⟨t2 ++ [⟨m.name, m.version, m.path⟩], ?_⟩
              rw [← h]
              simp only []
              rw [ht2]
              simp [hst1, List.append_assoc]
            · rw [← h]
              simp
            · intro x hx
              rw [← h] at hx
              simp only [List.mem_append, List.mem_cons, List.not_mem_nil, or_false] at hx
              rcases hx with hx | hx
              · rcases hgrow2 x hx with hx2 | hx2
                · exact Or.inl hx2
                · right
                  intro hcontr
                  exact hx2 (by simp [hst1, hcontr])
              · right
                rw [hx]
                exact h2

/-- C2: a successful resolve_for_module returns a reverse topological
order.  TopoAt says every dependency of an emitted module selects a
module whose identifier appears strictly earlier in the sequence;
Nodup on the identifiers says each name-at-version appears at most
once even when shared; RegOk says every emitted record is an installed
module of the registry, so the root module directory itself, which is
not a registry entry, is never emitted: under the hypothesis that no
registry path equals the root path, no output record carries the root
path. -/
theorem C2_resolver_reverse_topological_order
    (ctx : ResolverCtx) (fuel : Nat) (modulePath : Str) (out : List ResolvedDependency)
    (h : resolveForModule ctx fuel modulePath = .ok out) :
    (ResolvedIds out).Nodup ∧ TopoAt ctx out ∧ RegOk ctx out ∧
      ((∀ (n : Str) (m2 : InstalledModule), m2 ∈ ctx.listByName n → m2.path ≠ modulePath) →
        ∀ r ∈ out, r.path ≠ modulePath) := by
  cases hw : ctx.world modulePath with
  | none =>
    simp only [resolveForModule, hw] at h
    exact absurd h (by simp)
  | some deps =>
    cases hloop : visitList (visit ctx fuel) ctx modulePath deps ⟨[], [], []⟩ with
    | error e =>
      simp only [resolveForModule, hw, hloop] at h
      exact absurd h (by simp)
    | ok st =>
      simp only [resolveForModule, hw, hloop, Except.ok.injEq] at h
      have hinv0 : InvSt ctx (⟨[], [], []⟩ : VisitState) := by
        refine ⟨rfl, by simp [ResolvedIds], ?_, ?_⟩
        · intro i hi
          simp at hi
        · intro r hr
          simp at hr
      have hlist := visitList_spec ctx (visit ctx fuel) (visit_spec ctx fuel) modulePath deps
        ⟨[], [], []⟩ st hinv0 hloop
      obtain ⟨⟨hv1, hv2, hv3, hv4⟩, _, _, _, _⟩ := hlist
      rw [← h]
      refine ⟨hv2, hv3, hv4, ?_⟩
      intro hreg r hr hcontr
      obtain ⟨n, m2, hmem, hrm⟩ := hv4 r hr
      have := hreg n m2 hmem
      rw [hrm] at hcontr
      exact this hcontr

/-- Installed module of the C2 witness registry: liba 1.0.0. -/
def c2ModA : InstalledModule :=
  ⟨pstr "liba", pstr "1.0.0", pstr "/reg/modules/liba/1.0.0"⟩

/-- Installed module of the C2 witness registry: libb 1.0.0. -/
def c2ModB : InstalledModule :=
  ⟨pstr "libb", pstr "1.0.0", pstr "/reg/modules/libb/1.0.0"⟩

/-- Witness resolver context: the root depends on libb, libb depends on
liba, liba has no dependencies. -/
def c2Ctx : ResolverCtx where
  world := fun p =>
    if p = pstr "/work/rootmod" then some [⟨pstr "libb", pstr "^1.0.0"⟩]
    else if p = pstr "/reg/modules/libb/1.0.0" then some [⟨pstr "liba", pstr "*"⟩]
    else if p = pstr "/reg/modules/liba/1.0.0" then some []
    else none
  listByName := fun n =>
    if n = pstr "liba" then [c2ModA]
    else if n = pstr "libb" then [c2ModB]
    else []

theorem C2_resolver_reverse_topological_order_witness :
    resolveForModule c2Ctx 5 (pstr "/work/rootmod") =
      .ok [⟨pstr "liba", pstr "1.0.0", pstr "/reg/modules/liba/1.0.0"⟩,
           ⟨pstr "libb", pstr "1.0.0", pstr "/reg/modules/libb/1.0.0"⟩] ∧
    (ResolvedIds [⟨pstr "liba", pstr "1.0.0", pstr "/reg/modules/liba/1.0.0"⟩,
           ⟨pstr "libb", pstr "1.0.0", pstr "/reg/modules/libb/1.0.0"⟩]).Nodup := by
  refine ⟨rfl, ?_⟩
  exact (C2_resolver_reverse_topological_order c2Ctx 5 (pstr "/work/rootmod") _ rfl).1

/-!
Local registry, translated from src/promptpm/core/registry.py.  The
filesystem walk is abstracted as the list of (relative path, sha256
digest) pairs it produces, in walk order; the hash function itself is
abstracted, digests are opaque strings.  The manifest file is stored
structurally (its JSON serialisation is canonical, so the payload
determines the file); the verify branches that reject a syntactically
broken manifest file are therefore not reachable in this model, which
only considers manifests that install itself wrote.
-/

/-- The manifest file name inside every installed module directory. -/
def immutabilityManifestFilename : Str := pstr ".promptpm_immutable.json"

/-- Structured form of the immutability manifest payload. -/
structure ManifestPayload where
  name : Str
  version : Str
  algorithm : Str
  files : List (Str × Str)
deriving DecidableEq

/-- Registry-side DependencyError raises, one constructor per message
template. -/
inductive RegErr where
  | identityMismatch (name version : Str)
  | unsupportedAlgorithm (name version algorithm : Str)
  | invalidManifest (name version detail : Str)
  | immutabilityCheckFailed (name version message : Str)
  | alreadyInstalled (message : Str)
  | notDirectory (path : Str)
  | validationFailed (message : Str)
  | segmentNotString (field : Str)
  | segmentDot (field value : Str)
  | segmentSeparator (field value : Str)
  | segmentUnsupported (field value : Str)
deriving DecidableEq

/-- Model of the private write_immutability_manifest method: record the
path and digest of every file of the walked staged tree except the
manifest file itself. -/
def writeImmutabilityManifest (name version : Str) (walk : List (Str × Str)) :
    ManifestPayload :=
  { name := name, version := version, algorithm := pstr "sha256",
    files := walk.filter (fun e => e.1 ≠ immutabilityManifestFilename) }

/-- The loop of verify over the manifest file entries: build the
expected hash mapping, rejecting empty paths, digests that are not 64
characters, and duplicate paths. -/
def buildExpectedGo (name version : Str) (acc : List (Str × Str)) :
    List (Str × Str) → Except RegErr (List (Str × Str))
  | [] => .ok acc
  | e :: rest =>
    if e.1 = [] then
      .error (.invalidManifest name version (pstr "file path must be a non-empty string"))
    else if e.2.length ≠ 64 then
      .error (.invalidManifest name version (pstr "sha256 must be a 64-char string"))
    else
      match alookup e.1 acc with
      | some _ => .error (.invalidManifest name version (pstr "duplicate path"))
      | none => buildExpectedGo name version (acc ++ [e]) rest

/-- Expected hash mapping of a manifest. -/
def buildExpected (name version : Str) (files : List (Str × Str)) :
    Except RegErr (List (Str × Str)) :=
  buildExpectedGo name version [] files

/-- The single error message that enumerates the three categories. -/
def immutabilityMessage (name version : Str) (missing extra changed : List Str) : Str :=
  pstr "Immutability check failed for published module " ++ name ++ pstr "@" ++ version ++
    pstr ": " ++
    joinSep (pstr "; ")
      ((if missing ≠ [] then [pstr "missing files: " ++ joinSep (pstr ", ") missing] else []) ++
        (if extra ≠ [] then [pstr "extra files: " ++ joinSep (pstr ", ") extra] else []) ++
        (if changed ≠ [] then [pstr "changed files: " ++ joinSep (pstr ", ") changed] else []))

/-- Model of the private verify_immutability method over a structured
manifest payload and the (path, digest) walk of the directory: check
the manifest identity and algorithm, build the expected mapping,
recompute the actual mapping excluding the manifest file, and compare
the two as the three sorted categories.  The Python set differences
coincide with the sorted filters below because both mappings have
distinct keys. -/
def verifyImmutability (name version : Str) (payload : ManifestPayload)
    (disk : List (Str × Str)) : Except RegErr Unit :=
  if !(payload.name = name && payload.version = version) then
    .error (.identityMismatch name version)
  else if payload.algorithm ≠ pstr "sha256" then
    .error (.unsupportedAlgorithm name version payload.algorithm)
  else
    match buildExpected name version payload.files with
    | .error e => .error e
    | .ok expected =>
      let actual := disk.filter (fun e => e.1 ≠ immutabilityManifestFilename)
      let missing := pySort strLe
        ((expected.map Prod.fst).filter (fun p => alookup p actual = none))
      let extra := pySort strLe
        ((actual.map Prod.fst).filter (fun p => alookup p expected = none))
      let changed := pySort strLe
        ((expected.map Prod.fst).filter (fun p =>
          match alookup p expected, alookup p actual with
          | some he, some ha => he ≠ ha
          | _, _ => false))
      if missing ≠ [] ∨ extra ≠ [] ∨ changed ≠ [] then
        .error (.immutabilityCheckFailed name version
          (immutabilityMessage name version missing extra changed))
      else .ok ()

theorem alookup_nil {β : Type} (p : Str) : alookup p ([] : List (Str × β)) = none := rfl

theorem alookup_cons {β : Type} (p k : Str) (v : β) (rest : List (Str × β)) :
    alookup p ((k, v) :: rest) = if p = k then some v else alookup p rest := rfl

theorem alookup_eq_none_iff {β : Type} (p : Str) :
    ∀ l : List (Str × β), alookup p l = none ↔ p ∉ l.map Prod.fst := by
  intro l
  induction l with
  | nil => simp [alookup_nil]
  | cons e rest ih =>
    obtain ⟨k2, v⟩ := e
    by_cases h : p = k2
    · subst h
      rw [alookup_cons, if_pos rfl]
      simp only [List.map_cons]
      constructor
      · intro hcl
        exact absurd hcl (by simp)
      · intro hcr
        exact absurd (List.mem_cons_self _ _) hcr
    · simp only [alookup_cons, if_neg h, ih, List.map_cons, List.mem_cons]
      constructor
      · intro hc
        intro hor
        rcases hor with hor | hor
        · exact h hor
        · exact hc hor
      · intro hc hm
        exact hc (Or.inr hm)

theorem alookup_isSome_iff {β : Type} (p : Str) :
    ∀ l : List (Str × β), (∃ v, alookup p l = some v) ↔ p ∈ l.map Prod.fst := by
  intro l
  constructor
  · rintro ⟨v, hv⟩
    by_contra hc
    rw [← alookup_eq_none_iff] at hc
    rw [hc] at hv
    exact absurd hv (by simp)
  · intro h
    cases ha : alookup p l with
    | none =>
      rw [alookup_eq_none_iff] at ha
      exact absurd h ha
    | some v => exact ⟨v, rfl⟩

theorem pySort_eq_nil_iff {α : Type} (le : α → α → Bool) (l : List α) :
    pySort le l = [] ↔ l = [] := by
  cases l with
  | nil => simp [pySort]
  | cons a rest =>
    constructor
    · intro h
      exact absurd h (pySort_ne_nil le a rest)
    · intro h
      exact absurd h (by simp)

theorem alookup_some_mem {β : Type} {p : Str} {l : List (Str × β)} {v : β}
    (h : alookup p l = some v) : p ∈ l.map Prod.fst :=
  (alookup_isSome_iff p l).mp ⟨v, h⟩

theorem buildExpectedGo_ok (name version : Str) :
    ∀ (files acc : List (Str × Str)),
      (∀ e ∈ files, e.1 ≠ [] ∧ e.2.length = 64) →
      ((acc ++ files).map Prod.fst).Nodup →
      buildExpectedGo name version acc files = .ok (acc ++ files) := by
  intro files
  induction files with
  | nil =>
    intro acc _ _
    simp [buildExpectedGo]
  | cons e rest ih =>
    intro acc hcond hnodup
    obtain ⟨hne, hlen⟩ := hcond e (by simp)
    have hnotin : alookup e.1 acc = none := by
      rw [alookup_eq_none_iff]
      intro hc
      rw [List.map_append] at hnodup
      rcases List.nodup_append.mp hnodup with ⟨_, _, hdisj⟩
      exact hdisj hc (by simp)
    simp only [buildExpectedGo, hlen, hnotin]
    rw [if_neg (by simpa using hne), if_neg (by simp)]
    have hre : (acc ++ [e]) ++ rest = acc ++ e :: rest := by simp
    rw [ih (acc ++ [e]) (fun x hx => hcond x (List.mem_cons_of_mem e hx)) (by rw [hre]; exact hnodup)]
    rw [hre]

/-- C1: immutability verification against a manifest that install
wrote.  d0 is the walk (path, digest pairs) of the staged tree at
install time, d the walk at verification time; walks have distinct
paths, and install-time digests are 64-character sha256 hex strings on
non-empty relative paths.  Verification succeeds exactly when the disk
mapping, the manifest file itself excluded, agrees with the recorded
mapping path for path; otherwise it raises the single
DependencyError whose message enumerates the missing, extra and
changed paths, each category sorted. -/
theorem C1_verify_immutability_manifest
    (name version : Str) (d0 d : List (Str × Str))
    (h0nodup : (d0.map Prod.fst).Nodup)
    (hdnodup : (d.map Prod.fst).Nodup)
    (h0ok : ∀ e ∈ d0, e.1 ≠ [] ∧ e.2.length = 64) :
    (verifyImmutability name version (writeImmutabilityManifest name version d0) d =
        .ok () ↔
      ∀ p, alookup p (d.filter (fun e => e.1 ≠ immutabilityManifestFilename)) =
        alookup p (d0.filter (fun e => e.1 ≠ immutabilityManifestFilename))) ∧
    (¬(∀ p, alookup p (d.filter (fun e => e.1 ≠ immutabilityManifestFilename)) =
        alookup p (d0.filter (fun e => e.1 ≠ immutabilityManifestFilename))) →
      ∃ missing extra changed : List Str,
        verifyImmutability name version (writeImmutabilityManifest name version d0) d =
          .error (.immutabilityCheckFailed name version
            (immutabilityMessage name version missing extra changed)) ∧
        (∀ p, p ∈ missing ↔
          p ∈ (d0.filter (fun e => e.1 ≠ immutabilityManifestFilename)).map Prod.fst ∧
          p ∉ (d.filter (fun e => e.1 ≠ immutabilityManifestFilename)).map Prod.fst) ∧
        (∀ p, p ∈ extra ↔
          p ∈ (d.filter (fun e => e.1 ≠ immutabilityManifestFilename)).map Prod.fst ∧
          p ∉ (d0.filter (fun e => e.1 ≠ immutabilityManifestFilename)).map Prod.fst) ∧
        (∀ p, p ∈ changed ↔ ∃ he ha,
          alookup p (d0.filter (fun e => e.1 ≠ immutabilityManifestFilename)) = some he ∧
          alookup p (d.filter (fun e => e.1 ≠ immutabilityManifestFilename)) = some ha ∧
          he ≠ ha) ∧
        missing.Pairwise (fun a b => strLe a b = true) ∧
        extra.Pairwise (fun a b => strLe a b = true) ∧
        changed.Pairwise (fun a b => strLe a b = true) ∧
        (missing ≠ [] ∨ extra ≠ [] ∨ changed ≠ [])) := by
  set expected := d0.filter (fun e => e.1 ≠ immutabilityManifestFilename) with hexp
  set actual := d.filter (fun e => e.1 ≠ immutabilityManifestFilename) with hact
  have hexpnodup : (expected.map Prod.fst).Nodup :=
    ((List.filter_sublist d0).map Prod.fst).nodup h0nodup
  have hactnodup : (actual.map Prod.fst).Nodup :=
    ((List.filter_sublist d).map Prod.fst).nodup hdnodup
  have hbuild : buildExpected name version expected = .ok expected := by
    have := buildExpectedGo_ok name version expected []
      (fun e he => h0ok e (List.mem_of_mem_filter he))
      (by simpa using hexpnodup)
    simpa [buildExpected] using this
  set M := pySort strLe
    ((expected.map Prod.fst).filter (fun p => alookup p actual = none)) with hM
  set E := pySort strLe
    ((actual.map Prod.fst).filter (fun p => alookup p expected = none)) with hE
  set C := pySort strLe
    ((expected.map Prod.fst).filter (fun p =>
      match alookup p expected, alookup p actual with
      | some he, some ha => he ≠ ha
      | _, _ => false)) with hC
  have hver : verifyImmutability name version (writeImmutabilityManifest name version d0) d =
      (if M ≠ [] ∨ E ≠ [] ∨ C ≠ [] then
        .error (.immutabilityCheckFailed name version (immutabilityMessage name version M E C))
      else .ok ()) := by
    rw [verifyImmutability]
    rw [if_neg (by simp [writeImmutabilityManifest])]
    rw [if_neg (by simp [writeImmutabilityManifest])]
    have hfiles : (writeImmutabilityManifest name version d0).files = expected := rfl
    rw [hfiles, hbuild]
  have hMc : ∀ p, p ∈ M ↔ p ∈ expected.map Prod.fst ∧ p ∉ actual.map Prod.fst := by
    intro p
    rw [hM, mem_pySort, List.mem_filter]
    simp only [decide_eq_true_eq]
    rw [alookup_eq_none_iff]
  have hEc : ∀ p, p ∈ E ↔ p ∈ actual.map Prod.fst ∧ p ∉ expected.map Prod.fst := by
    intro p
    rw [hE, mem_pySort, List.mem_filter]
    simp only [decide_eq_true_eq]
    rw [alookup_eq_none_iff]
  have hCc : ∀ p, p ∈ C ↔ ∃ he ha, alookup p expected = some he ∧
      alookup p actual = some ha ∧ he ≠ ha := by
    intro p
    rw [hC, mem_pySort, List.mem_filter]
    constructor
    · rintro ⟨hmem, hpred⟩
      cases he2 : alookup p expected with
      | none =>
        rw [he2] at hpred
        cases ha2 : alookup p actual with
        | none =>
          rw [ha2] at hpred
          exact absurd hpred (by simp)
        | some ha =>
          rw [ha2] at hpred
          exact absurd hpred (by simp)
      | some he =>
        rw [he2] at hpred
        cases ha2 : alookup p actual with
        | none =>
          rw [ha2] at hpred
          exact absurd hpred (by simp)
        | some ha =>
          rw [ha2] at hpred
          simp only [decide_eq_true_eq] at hpred
          exact ⟨he, ha, rfl, rfl, hpred⟩
    · rintro ⟨he, ha, hhe, hha, hne⟩
      refine ⟨alookup_some_mem hhe, ?_⟩
      rw [hhe, hha]
      simpa using hne
  have hkey : (M = [] ∧ E = [] ∧ C = []) ↔ (∀ p, alookup p actual = alookup p expected) := by
    constructor
    · rintro ⟨hm, he, hc⟩ p
      cases hx : alookup p expected with
      | some v =>
        have hpin : p ∈ expected.map Prod.fst := alookup_some_mem hx
        have hpact : p ∈ actual.map Prod.fst := by
          by_contra hno
          have : p ∈ M := (hMc p).mpr ⟨hpin, hno⟩
          rw [hm] at this
          exact absurd this (by simp)
        obtain ⟨va, hva⟩ := (alookup_isSome_iff p actual).mpr hpact
        have hveq : va = v := by
          by_contra hvne
          have : p ∈ C := (hCc p).mpr ⟨v, va, hx, hva, fun hc2 => hvne hc2.symm⟩
          rw [hc] at this
          exact absurd this (by simp)
        rw [hva, hveq]
      | none =>
        cases hy : alookup p actual with
        | none => rfl
        | some va =>
          have hpact : p ∈ actual.map Prod.fst := alookup_some_mem hy
          have hpexp : p ∉ expected.map Prod.fst := (alookup_eq_none_iff p expected).mp hx
          have : p ∈ E := (hEc p).mpr ⟨hpact, hpexp⟩
          rw [he] at this
          exact absurd this (by simp)
    · intro hall
      refine ⟨?_, ?_, ?_⟩
      · rw [List.eq_nil_iff_forall_not_mem]
        intro p hp
        obtain ⟨hpin, hpout⟩ := (hMc p).mp hp
        obtain ⟨v, hv⟩ := (alookup_isSome_iff p expected).mpr hpin
        have := hall p
        rw [hv] at this
        exact hpout (alookup_some_mem this)
      · rw [List.eq_nil_iff_forall_not_mem]
        intro p hp
        obtain ⟨hpin, hpout⟩ := (hEc p).mp hp
        obtain ⟨v, hv⟩ := (alookup_isSome_iff p actual).mpr hpin
        have := hall p
        rw [hv] at this
        exact hpout (alookup_some_mem this.symm)
      · rw [List.eq_nil_iff_forall_not_mem]
        intro p hp
        obtain ⟨he2, ha2, hhe, hha, hne⟩ := (hCc p).mp hp
        have := hall p
        rw [hha, hhe] at this
        injection this with this
        exact hne this.symm
  constructor
  · constructor
    · intro hok
      rw [hver] at hok
      by_cases hcond : M ≠ [] ∨ E ≠ [] ∨ C ≠ []
      · rw [if_pos hcond] at hok
        exact absurd hok (by simp)
      · push_neg at hcond
        exact hkey.mp ⟨hcond.1, hcond.2.1, hcond.2.2⟩
    · intro hall
      rw [hver]
      have hempty := hkey.mpr hall
      rw [if_neg (by push_neg; exact ⟨hempty.1, hempty.2.1, hempty.2.2⟩)]
  · intro hne
    refine ⟨M, E, C, ?_, hMc, hEc, hCc, ?_, ?_, ?_, ?_⟩
    · rw [hver]
      rw [if_pos ?_]
      by_contra hcond
      push_neg at hcond
      exact hne (hkey.mp ⟨hcond.1, hcond.2.1, hcond.2.2⟩)
    · exact pairwise_pySort strLe strLe_trans strLe_total _
    · exact pairwise_pySort strLe strLe_trans strLe_total _
    · exact pairwise_pySort strLe strLe_trans strLe_total _
    · by_contra hcond
      push_neg at hcond
      exact hne (hkey.mp ⟨hcond.1, hcond.2.1, hcond.2.2⟩)

/-- One character of the safe-segment class after the first. -/
def safeSegmentChar (c : Char) : Bool :=
  c.isAlphanum || c = '.' || c = '_' || c = '+' || c = '-'

/-- Full match of the compiled pattern: a leading alphanumeric
character followed by safe-segment characters to the end of the
string. -/
def fullMatchSafeSegment (s : Str) : Bool :=
  match s with
  | [] => false
  | c :: rest => c.isAlphanum && rest.all safeSegmentChar

/-- What the code actually tests: re.match of a pattern ending in the
dollar anchor.  In Python the dollar also matches just before one
trailing newline, and neither character class of the pattern contains a
newline, so the call accepts exactly the full matches plus every full
match followed by a single trailing newline. -/
def pyMatchSafeSegment (s : Str) : Bool :=
  fullMatchSafeSegment s ||
    (s.getLast? = some '\n' && fullMatchSafeSegment s.dropLast)

/-- Model of the private validate_segment function of registry.py over
string inputs (the not-a-string branch collapses onto the empty
check). -/
def validateSegment (field value : Str) : Except RegErr Str :=
  if value = [] then .error (.segmentNotString field)
  else if value = pstr "." ∨ value = pstr ".." then .error (.segmentDot field value)
  else if strContains value (pstr "/") || strContains value (pstr "\\") then
    .error (.segmentSeparator field value)
  else if !(pyMatchSafeSegment value) then .error (.segmentUnsupported field value)
  else .ok value

theorem strContains_single_of_all {c : Char} :
    ∀ s : Str, (∀ x ∈ s, x ≠ c) → strContains s [c] = false := by
  intro s
  induction s with
  | nil => intro _; rfl
  | cons x rest ih =>
    intro h
    have hx : x ≠ c := h x (by simp)
    simp only [strContains, eatLead]
    rw [if_neg (fun hc => hx hc.symm)]
    exact ih (fun y hy => h y (List.mem_cons_of_mem x hy))

instance {ε α : Type} [DecidableEq ε] [DecidableEq α] : DecidableEq (Except ε α) := fun x y =>
  match x, y with
  | .error a, .error b =>
    if h : a = b then isTrue (by rw [h]) else isFalse (fun hc => h (by injection hc))
  | .error _, .ok _ => isFalse (fun hc => Except.noConfusion hc)
  | .ok _, .error _ => isFalse (fun hc => Except.noConfusion hc)
  | .ok a, .ok b =>
    if h : a = b then isTrue (by rw [h]) else isFalse (fun hc => h (by injection hc))

/-- C7: the path-safety gate accepts the string made of the letter a
followed by a newline, although that string does not match the
safe-segment pattern as a whole: the code uses re.match with a dollar
anchor, which tolerates one trailing newline, so acceptance is not
equivalent to the whole-match predicate of the specification.  The
last conjunct shows the gate does accept every string the
specification accepts, so the divergence is pure over-acceptance. -/
theorem C7_validate_segment_trailing_newline :
    validateSegment (pstr "name") (pstr "a\n") = .ok (pstr "a\n") ∧
    fullMatchSafeSegment (pstr "a\n") = false ∧
    (∀ field value, fullMatchSafeSegment value = true →
      validateSegment field value = .ok value) := by
  refine ⟨by decide, by decide, ?_⟩
  intro field value h
  cases value with
  | nil => simp [fullMatchSafeSegment] at h
  | cons c rest =>
    simp only [fullMatchSafeSegment, Bool.and_eq_true] at h
    obtain ⟨hc, hrest⟩ := h
    have hall : ∀ x ∈ c :: rest, safeSegmentChar x = true := by
      intro x hx
      rcases List.mem_cons.mp hx with hx1 | hx2
      · rw [hx1]
        simp [safeSegmentChar, hc]
      · rw [List.all_eq_true] at hrest
        exact hrest x hx2
    have hnosl : strContains (c :: rest) (pstr "/") = false := by
      apply strContains_single_of_all
      intro x hx hcx
      have := hall x hx
      rw [hcx] at this
      exact absurd this (by decide)
    have hnobs : strContains (c :: rest) (pstr "\\") = false := by
      apply strContains_single_of_all
      intro x hx hcx
      have := hall x hx
      rw [hcx] at this
      exact absurd this (by decide)
    have hdot : ¬(c :: rest = pstr "." ∨ c :: rest = pstr "..") := by
      intro hor
      rcases hor with h1 | h1
      · have : c = '.' := by
          have := congrArg (fun l => List.headD l ' ') h1
          simpa using this
        rw [this] at hc
        exact absurd hc (by decide)
      · have : c = '.' := by
          have := congrArg (fun l => List.headD l ' ') h1
          simpa using this
        rw [this] at hc
        exact absurd hc (by decide)
    rw [validateSegment, if_neg (by simp), if_neg hdot]
    rw [if_neg (by rw [hnosl, hnobs]; simp)]
    rw [if_neg (by simp [pyMatchSafeSegment, fullMatchSafeSegment, hc, hrest])]

theorem C7_validate_segment_trailing_newline_witness :
    fullMatchSafeSegment (pstr "pkg") = true ∧
    validateSegment (pstr "name") (pstr "pkg") = .ok (pstr "pkg") :=
  ⟨by decide, C7_validate_segment_trailing_newline.2.2 (pstr "name") (pstr "pkg") (by decide)⟩

/-!
Schema validator, translated from src/schema_and_validator.py.  Parsed
YAML/TOML documents are modelled by the Value type; dict access keeps
Python get semantics (a missing key and an explicit null both read as
null unless a default is given).  Python dict equality ignores entry
order, but the only place values are compared is the placeholder set
difference, where unhashable values (lists, dicts) raise before any
comparison, so the structural equality below is faithful there.
-/

/-- Parsed document values: null, booleans, integers, strings, lists
and mappings. -/
inductive Value where
  | vnull : Value
  | vbool (b : Bool) : Value
  | vint (n : Int) : Value
  | vstr (s : Str) : Value
  | vlist (xs : List Value) : Value
  | vdict (entries : List (Str × Value)) : Value

mutual

/-- Python equality on document values; a boolean equals the integer of
its truth value, as in Python. -/
def Value.beq : Value → Value → Bool
  | .vnull, .vnull => true
  | .vbool a, .vbool b => a = b
  | .vbool a, .vint n => (if a then (1 : Int) else 0) = n
  | .vint n, .vbool a => (if a then (1 : Int) else 0) = n
  | .vint a, .vint b => a = b
  | .vstr a, .vstr b => a = b
  | .vlist a, .vlist b => beqVList a b
  | .vdict a, .vdict b => beqVDict a b
  | _, _ => false

/-- Pointwise equality of value lists. -/
def beqVList : List Value → List Value → Bool
  | [], [] => true
  | x :: xs, y :: ys => Value.beq x y && beqVList xs ys
  | _, _ => false

/-- Entrywise equality of mappings. -/
def beqVDict : List (Str × Value) → List (Str × Value) → Bool
  | [], [] => true
  | (k1, v1) :: xs, (k2, v2) :: ys => k1 = k2 && Value.beq v1 v2 && beqVDict xs ys
  | _, _ => false

end

/-- Python membership test for a mapping key. -/
def pyIn (key : Str) (entries : List (Str × Value)) : Bool := (alookup key entries).isSome

/-- Python dict.get with the null default. -/
def dictGet (entries : List (Str × Value)) (key : Str) : Value :=
  (alookup key entries).getD .vnull

/-- Python iteration over a value: lists yield their items, strings
their characters, mappings their keys; other values are not iterable. -/
def pyIter : Value → Option (List Value)
  | .vlist xs => some xs
  | .vstr s => some (s.map (fun c => Value.vstr [c]))
  | .vdict es => some (es.map (fun e => Value.vstr e.1))
  | _ => none

/-- A value Python can put into a set. -/
def pyHashable : Value → Bool
  | .vlist _ => false
  | .vdict _ => false
  | _ => true

/-- Worker for dedupPy, carrying the values already kept. -/
def dedupPyGo (seen : List Value) : List Value → List Value
  | [] => []
  | v :: rest =>
    if seen.any (fun x => Value.beq x v) then dedupPyGo seen rest
    else v :: dedupPyGo (seen ++ [v]) rest

/-- Deduplication with Python equality, the order-insensitive part of
building a set. -/
def dedupPy (l : List Value) : List Value := dedupPyGo [] l

/-- Raised errors of the validator: ValidationError with its message,
or an uncaught Python TypeError or AttributeError. -/
inductive VErr where
  | validation (message : Str)
  | attributeError
  | typeError
deriving DecidableEq

/-- The in-memory module record the loader builds: the raw mapping and
the source path; the named blocks are read with get semantics. -/
structure PromptModule where
  raw : List (Str × Value)
  source_path : Str

/-- The module block, raw.get of module. -/
def PromptModule.module (m : PromptModule) : Value := dictGet m.raw (pstr "module")

/-- The prompt block, raw.get of prompt. -/
def PromptModule.prompt (m : PromptModule) : Value := dictGet m.raw (pstr "prompt")

/-- The interface block, raw.get of interface. -/
def PromptModule.interface (m : PromptModule) : Value := dictGet m.raw (pstr "interface")

/-- The dependencies entry, defaulting to an empty list only when the
key is absent. -/
def PromptModule.dependencies (m : PromptModule) : Value :=
  (alookup (pstr "dependencies") m.raw).getD (.vlist [])

/-- The tests entry, defaulting to an empty list only when the key is
absent. -/
def PromptModule.tests (m : PromptModule) : Value :=
  (alookup (pstr "tests") m.raw).getD (.vlist [])

/-- Model of the private validate_top_level helper. -/
def validateTopLevel (raw : List (Str × Value)) : Except VErr Unit :=
  let missing := pySort strLe
    (([pstr "module", pstr "prompt", pstr "interface"]).filter (fun k => !(pyIn k raw)))
  if missing ≠ [] then
    .error (.validation (pstr "Missing required top-level fields: " ++
      joinSep (pstr ", ") missing))
  else .ok ()

/-- Model of the private validate_module_metadata helper. -/
def validateModuleMetadata (meta : Value) : Except VErr Unit :=
  match meta with
  | .vdict entries =>
    if !(pyIn (pstr "name") entries) then
      .error (.validation (pstr "module.name is required"))
    else if !(pyIn (pstr "version") entries) then
      .error (.validation (pstr "module.version is required"))
    else if !(pyIn (pstr "description") entries) then
      .error (.validation (pstr "module.description is required"))
    else
      match dictGet entries (pstr "name") with
      | .vstr s =>
        if s = [] then .error (.validation (pstr "module.name must be a non-empty string"))
        else
          match dictGet entries (pstr "version") with
          | .vstr _ => .ok ()
          | _ => .error (.validation (pstr "module.version must be a string"))
      | _ => .error (.validation (pstr "module.name must be a non-empty string"))
  | _ => .error (.validation (pstr "module must be a mapping"))

/-- The loop over interface inputs inside validate_prompt_block: the
declared input names, keeping only mapping entries. -/
def declaredInputNames (inputs : List Value) : List Value :=
  inputs.filterMap (fun inp =>
    match inp with
    | .vdict ie => some (dictGet ie (pstr "name"))
    | _ => none)

/-- Model of the private validate_prompt_block helper.  Note the code
requires only the presence of the template key; it never checks the
type of its value. -/
def validatePromptBlock (prompt interface2 : Value) : Except VErr Unit :=
  match prompt with
  | .vdict pentries =>
    if !(pyIn (pstr "template") pentries) then
      .error (.validation (pstr "prompt.template is required"))
    else
      match alookup (pstr "placeholders") pentries with
      | some (.vlist placeholders) =>
        match interface2 with
        | .vdict ientries =>
          match pyIter ((alookup (pstr "inputs") ientries).getD (.vlist [])) with
          | none => .error .typeError
          | some inputs =>
            let declared := declaredInputNames inputs
            if declared.any (fun d => !(pyHashable d)) then .error .typeError
            else if placeholders.any (fun p => !(pyHashable p)) then .error .typeError
            else
              match dedupPy
                  (placeholders.filter (fun p => !(declared.any (fun d => Value.beq p d)))) with
              | [] => .ok ()
              | u :: us =>
                match ((u :: us).mapM (fun x =>
                    match x with
                    | .vstr s => some s
                    | _ => none)) with
                | some names =>
                  .error (.validation (pstr "Undeclared placeholders used in template: " ++
                    joinSep (pstr ", ") (pySort strLe names)))
                | none => .error .typeError
        | _ => .error .attributeError
      | _ => .error (.validation (pstr "prompt.placeholders must be a list"))
  | _ => .error (.validation (pstr "prompt must be a mapping"))

/-- The loop over interface input entries. -/
def validateInterfaceInputs : List Value → Except VErr Unit
  | [] => .ok ()
  | inp :: rest =>
    match inp with
    | .vdict ie =>
      if !(pyIn (pstr "name") ie) then
        .error (.validation (pstr "interface.inputs.name is required"))
      else if !(pyIn (pstr "type") ie) then
        .error (.validation (pstr "interface.inputs.type is required"))
      else if !(pyIn (pstr "description") ie) then
        .error (.validation (pstr "interface.inputs.description is required"))
      else if !(pyIn (pstr "required") ie) then
        .error (.validation (pstr "interface.inputs.required is required"))
      else validateInterfaceInputs rest
    | _ => .error (.validation (pstr "interface.inputs entries must be mappings"))

/-- The loop over interface output entries. -/
def validateInterfaceOutputs : List Value → Except VErr Unit
  | [] => .ok ()
  | out :: rest =>
    match out with
    | .vdict oe =>
      if !(pyIn (pstr "type") oe) then
        .error (.validation (pstr "interface.outputs.type is required"))
      else if !(pyIn (pstr "description") oe) then
        .error (.validation (pstr "interface.outputs.description is required"))
      else validateInterfaceOutputs rest
    | _ => .error (.validation (pstr "interface.outputs entries must be mappings"))

/-- Model of the private validate_interface helper. -/
def validateInterface (interface2 : Value) : Except VErr Unit :=
  match interface2 with
  | .vdict es =>
    if !(pyIn (pstr "intent") es) then
      .error (.validation (pstr "interface.intent is required"))
    else
      match alookup (pstr "inputs") es with
      | some (.vlist inputs) =>
        match alookup (pstr "outputs") es with
        | some (.vlist outputs) =>
          match validateInterfaceInputs inputs with
          | .error e => .error e
          | .ok _ => validateInterfaceOutputs outputs
        | _ => .error (.validation (pstr "interface.outputs must be a list"))
      | _ => .error (.validation (pstr "interface.inputs must be a list"))
  | _ => .error (.validation (pstr "interface must be a mapping"))

/-- Model of validate_prompt_module: the four validators in order. -/
def validatePromptModule (m : PromptModule) : Except VErr Unit :=
  match validateTopLevel m.raw with
  | .error e => .error e
  | .ok _ =>
    match validateModuleMetadata m.module with
    | .error e => .error e
    | .ok _ =>
      match validatePromptBlock m.prompt m.interface with
      | .error e => .error e
      | .ok _ => validateInterface m.interface

/-- The module document that refutes C8 as stated: fully valid except
that prompt.template is the integer 42 rather than a string. -/
def c8CexModule : PromptModule where
  raw := [
    (pstr "module", .vdict [
      (pstr "name", .vstr (pstr "m")),
      (pstr "version", .vstr (pstr "1.0.0")),
      (pstr "description", .vstr (pstr "d"))]),
    (pstr "prompt", .vdict [
      (pstr "template", .vint 42),
      (pstr "placeholders", .vlist [])]),
    (pstr "interface", .vdict [
      (pstr "intent", .vstr (pstr "i")),
      (pstr "inputs", .vlist []),
      (pstr "outputs", .vlist [])])]
  source_path := pstr "/mod/promptpm.yaml"

/-- C8 counterexample: the validator accepts a module whose
prompt.template is the integer 42, not a string, so the claim that the
validator rejects every module with a non-string template is false. -/
theorem C8_validator_accepts_nonstring_template :
    validatePromptModule c8CexModule = .ok () ∧
    alookup (pstr "template")
      [(pstr "template", Value.vint 42), (pstr "placeholders", Value.vlist [])] =
      some (Value.vint 42) ∧
    c8CexModule.prompt =
      .vdict [(pstr "template", Value.vint 42), (pstr "placeholders", Value.vlist [])] :=
  ⟨rfl, rfl, rfl⟩

/-- C8 amended: every module the validator accepts has a prompt block
that is a mapping containing a template key (of any type, since the
code checks only presence) and a placeholders key whose value is a
list; equivalently the validator rejects a missing template, and a
missing or non-list placeholders. -/
theorem C8_prompt_block_required_keys (m : PromptModule)
    (h : validatePromptModule m = .ok ()) :
    ∃ pentries, m.prompt = .vdict pentries ∧
      pyIn (pstr "template") pentries = true ∧
      ∃ placeholders, alookup (pstr "placeholders") pentries = some (.vlist placeholders) := by
  rw [validatePromptModule] at h
  cases h1 : validateTopLevel m.raw with
  | error e =>
    rw [h1] at h
    exact absurd h (by simp)
  | ok u1 =>
    rw [h1] at h
    cases h2 : validateModuleMetadata m.module with
    | error e =>
      rw [h2] at h
      exact absurd h (by simp)
    | ok u2 =>
      rw [h2] at h
      cases h3 : validatePromptBlock m.prompt m.interface with
      | error e =>
        rw [h3] at h
        exact absurd h (by simp)
      | ok u3 =>
        cases hp : m.prompt with
        | vdict pentries =>
          rw [hp] at h3
          refine ⟨pentries, rfl, ?_, ?_⟩
          · by_contra hc
            rw [validatePromptBlock, if_pos (by simp [boolNotTrue hc])] at h3
            exact absurd h3 (by simp)
          · cases hpl : alookup (pstr "placeholders") pentries with
            | none =>
              by_cases ht : pyIn (pstr "template") pentries = true
              · rw [validatePromptBlock, if_neg (by simp [ht]), hpl] at h3
                exact absurd h3 (by simp)
              · rw [validatePromptBlock, if_pos (by simp [boolNotTrue ht])] at h3
                exact absurd h3 (by simp)
            | some v =>
              cases hv : v with
              | vlist placeholders =>
                subst hv
                exact ⟨placeholders, rfl⟩
              | vnull =>
                by_cases ht : pyIn (pstr "template") pentries = true
                · rw [hv] at hpl
                  rw [validatePromptBlock, if_neg (by simp [ht]), hpl] at h3
                  exact absurd h3 (by simp)
                · rw [validatePromptBlock, if_pos (by simp [boolNotTrue ht])] at h3
                  exact absurd h3 (by simp)
              | vbool b =>
                by_cases ht : pyIn (pstr "template") pentries = true
                · rw [hv] at hpl
                  rw [validatePromptBlock, if_neg (by simp [ht]), hpl] at h3
                  exact absurd h3 (by simp)
                · rw [validatePromptBlock, if_pos (by simp [boolNotTrue ht])] at h3
                  exact absurd h3 (by simp)
              | vint n =>
                by_cases ht : pyIn (pstr "template") pentries = true
                · rw [hv] at hpl
                  rw [validatePromptBlock, if_neg (by simp [ht]), hpl] at h3
                  exact absurd h3 (by simp)
                · rw [validatePromptBlock, if_pos (by simp [boolNotTrue ht])] at h3
                  exact absurd h3 (by simp)
              | vstr s =>
                by_cases ht : pyIn (pstr "template") pentries = true
                · rw [hv] at hpl
                  rw [validatePromptBlock, if_neg (by simp [ht]), hpl] at h3
                  exact absurd h3 (by simp)
                · rw [validatePromptBlock, if_pos (by simp [boolNotTrue ht])] at h3
                  exact absurd h3 (by simp)
              | vdict d =>
                by_cases ht : pyIn (pstr "template") pentries = true
                · rw [hv] at hpl
                  rw [validatePromptBlock, if_neg (by simp [ht]), hpl] at h3
                  exact absurd h3 (by simp)
                · rw [validatePromptBlock, if_pos (by simp [boolNotTrue ht])] at h3
                  exact absurd h3 (by simp)
        | vnull =>
          rw [hp] at h3
          exact absurd h3 (by simp [validatePromptBlock])
        | vbool b =>
          rw [hp] at h3
          exact absurd h3 (by simp [validatePromptBlock])
        | vint n =>
          rw [hp] at h3
          exact absurd h3 (by simp [validatePromptBlock])
        | vstr s =>
          rw [hp] at h3
          exact absurd h3 (by simp [validatePromptBlock])
        | vlist xs =>
          rw [hp] at h3
          exact absurd h3 (by simp [validatePromptBlock])

/-- A fully valid module exercising the amended C8 statement. -/
def c8GoodModule : PromptModule where
  raw := [
    (pstr "module", .vdict [
      (pstr "name", .vstr (pstr "m")),
      (pstr "version", .vstr (pstr "1.0.0")),
      (pstr "description", .vstr (pstr "d"))]),
    (pstr "prompt", .vdict [
      (pstr "template", .vstr (pstr "template.prompt")),
      (pstr "placeholders", .vlist [.vstr (pstr "document")])]),
    (pstr "interface", .vdict [
      (pstr "intent", .vstr (pstr "i")),
      (pstr "inputs", .vlist [.vdict [
        (pstr "name", .vstr (pstr "document")),
        (pstr "type", .vstr (pstr "text")),
        (pstr "description", .vstr (pstr "doc")),
        (pstr "required", .vbool true)]]),
      (pstr "outputs", .vlist [.vdict [
        (pstr "type", .vstr (pstr "text")),
        (pstr "description", .vstr (pstr "out"))]])])]
  source_path := pstr "/mod/promptpm.yaml"

theorem C8_prompt_block_required_keys_witness :
    validatePromptModule c8GoodModule = .ok () ∧
    ∃ pentries, c8GoodModule.prompt = .vdict pentries ∧
      pyIn (pstr "template") pentries = true ∧
      ∃ placeholders, alookup (pstr "placeholders") pentries = some (.vlist placeholders) :=
  ⟨rfl, C8_prompt_block_required_keys c8GoodModule rfl⟩

/-!
Install, translated from LocalRegistry.install.  The filesystem is the
registry state: the association of (name, version) to the staged
directory tree the atomic rename published.  A source module is its
loaded document, its source path, its walked files as (relative path,
content) pairs, and whether the source path is a directory.  The
sha256 of a file is an abstract function of its content.  The staging
directory lifecycle collapses in the model because the rename is
atomic and every failure path removes the staging copy: a failed call
leaves the registry mapping exactly as it was.
-/

/-- One published module directory: copied files plus the manifest. -/
structure StagedTree where
  files : List (Str × Str)
  manifest : ManifestPayload
deriving DecidableEq

/-- The registry on disk: its root and the published modules. -/
structure RegistryState where
  root : Str
  modules : List ((Str × Str) × StagedTree)
deriving DecidableEq

/-- A module directory as install reads it. -/
structure SourceModule where
  doc : List (Str × Value)
  sourcePath : Str
  files : List (Str × Str)
  isDir : Bool

/-- Errors install can raise: the propagated ValidationError of the
validator, or a registry DependencyError. -/
inductive InstallErr where
  | validation (e : VErr)
  | registry (e : RegErr)
deriving DecidableEq

/-- Existence test for a destination directory. -/
def lookupModuleDir (name version : Str) :
    List ((Str × Str) × StagedTree) → Option StagedTree
  | [] => none
  | e :: rest => if e.1 = (name, version) then some e.2 else lookupModuleDir name version rest

/-- The destination path R/modules/name/version. -/
def moduleDirectory (root name version : Str) : Str :=
  root ++ pstr "/modules/" ++ name ++ pstr "/" ++ version

/-- The message of the already-installed failure. -/
def alreadyInstalledMessage (name version : Str) : Str :=
  pstr "Module already installed: " ++ name ++ pstr "@" ++ version ++
    pstr ". Published versions are immutable and cannot be overwritten."

/-- Model of LocalRegistry.install: validate the module, validate the
name and version as path segments, fail if the destination exists,
fail if the source is not a directory, otherwise copy the tree, write
the manifest into it and atomically publish it.  The pair returned is
the call result together with the registry state after the call; every
failure leaves the state unchanged.  The branches reading the module
block are unreachable for documents the validator accepted and
propagate as the crash they would be in Python. -/
def installModule (fs : RegistryState) (m : SourceModule) (hash : Str → Str) :
    Except InstallErr InstalledModule × RegistryState :=
  match validatePromptModule ⟨m.doc, m.sourcePath⟩ with
  | .error e => (.error (.validation e), fs)
  | .ok _ =>
    match dictGet m.doc (pstr "module") with
    | .vdict me =>
      match dictGet me (pstr "name"), dictGet me (pstr "version") with
      | .vstr rawName, .vstr rawVersion =>
        match validateSegment (pstr "module.name") rawName with
        | .error e => (.error (.registry e), fs)
        | .ok name =>
          match validateSegment (pstr "module.version") rawVersion with
          | .error e => (.error (.registry e), fs)
          | .ok version =>
            if (lookupModuleDir name version fs.modules).isSome then
              (.error (.registry (.alreadyInstalled (alreadyInstalledMessage name version))), fs)
            else if !m.isDir then
              (.error (.registry (.notDirectory m.sourcePath)), fs)
            else
              let digests := m.files.map (fun e => (e.1, hash e.2))
              let staged : StagedTree :=
                { files := m.files,
                  manifest := writeImmutabilityManifest name version digests }
              (.ok ⟨name, version, moduleDirectory fs.root name version⟩,
                { fs with modules := fs.modules ++ [((name, version), staged)] })
      | _, _ => (.error (.validation .typeError), fs)
    | _ => (.error (.validation .typeError), fs)

/-- C6: two consecutive installs of the same module.  From a successful
first call, the destination name and version are now published (the
module directory exists and the returned path is R/modules/N/V), and
the second call of the same module fails with the already-installed
DependencyError while leaving the registry state exactly as the first
call left it. -/
theorem C6_install_twice_immutable
    (fs : RegistryState) (m : SourceModule) (hash : Str → Str)
    (inst : InstalledModule) (fs1 : RegistryState)
    (h1 : installModule fs m hash = (.ok inst, fs1)) :
    (lookupModuleDir inst.name inst.version fs1.modules).isSome ∧
    inst.path = moduleDirectory fs.root inst.name inst.version ∧
    installModule fs1 m hash =
      (.error (.registry (.alreadyInstalled
        (alreadyInstalledMessage inst.name inst.version))), fs1) := by
  cases hval : validatePromptModule ⟨m.doc, m.sourcePath⟩ with
  | error e =>
    simp only [installModule, hval] at h1
    exact absurd (congrArg Prod.fst h1) (by simp)
  | ok u =>
    cases hmb : dictGet m.doc (pstr "module") with
    | vdict me =>
      cases hname : dictGet me (pstr "name") with
      | vstr rawName =>
        cases hver : dictGet me (pstr "version") with
        | vstr rawVersion =>
          cases hseg1 : validateSegment (pstr "module.name") rawName with
          | error e =>
            simp only [installModule, hval, hmb, hname, hver, hseg1] at h1
            exact absurd (congrArg Prod.fst h1) (by simp)
          | ok name =>
            cases hseg2 : validateSegment (pstr "module.version") rawVersion with
            | error e =>
              simp only [installModule, hval, hmb, hname, hver, hseg1, hseg2] at h1
              exact absurd (congrArg Prod.fst h1) (by simp)
            | ok version =>
              simp only [installModule, hval, hmb, hname, hver, hseg1, hseg2] at h1
              by_cases hex : (lookupModuleDir name version fs.modules).isSome = true
              · rw [if_pos hex] at h1
                exact absurd (congrArg Prod.fst h1) (by simp)
              · rw [if_neg hex] at h1
                by_cases hdir : m.isDir = true
                · rw [if_neg (by simp [hdir])] at h1
                  have hinst : inst = ⟨name, version, moduleDirectory fs.root name version⟩ := by
                    have := congrArg Prod.fst h1
                    simp only [Except.ok.injEq] at this
                    exact this.symm
                  have hfs1 : fs1 = { fs with modules := fs.modules ++
                      [((name, version),
                        { files := m.files,
                          manifest := writeImmutabilityManifest name version
                            (m.files.map (fun e => (e.1, hash e.2))) })] } := by
                    have := congrArg Prod.snd h1
                    exact this.symm
                  have hlook : (lookupModuleDir name version fs1.modules).isSome = true := by
                    rw [hfs1]
                    simp only []
                    have : ∀ l : List ((Str × Str) × StagedTree),
                        (lookupModuleDir name version (l ++
                          [((name, version),
                            { files := m.files,
                              manifest := writeImmutabilityManifest name version
                                (m.files.map (fun e => (e.1, hash e.2))) })])).isSome = true := by
                      intro l
                      induction l with
                      | nil => simp [lookupModuleDir]
                      | cons e rest ih =>
                        by_cases he : e.1 = (name, version)
                        · simp [lookupModuleDir, he]
                        · simp only [List.cons_append, lookupModuleDir, if_neg he]
                          exact ih
                    exact this fs.modules
                  refine ⟨by rw [hinst]; exact hlook, by rw [hinst], ?_⟩
                  have hroot1 : fs1.root = fs.root := by rw [hfs1]
                  rw [hinst]
                  simp only [installModule, hval, hmb, hname, hver, hseg1, hseg2]
                  rw [if_pos hlook]
                · rw [if_pos (by simp [boolNotTrue hdir])] at h1
                  exact absurd (congrArg Prod.fst h1) (by simp)
        | vnull =>
          simp only [installModule, hval, hmb, hname, hver] at h1
          exact absurd (congrArg Prod.fst h1) (by simp)
        | vbool b =>
          simp only [installModule, hval, hmb, hname, hver] at h1
          exact absurd (congrArg Prod.fst h1) (by simp)
        | vint n =>
          simp only [installModule, hval, hmb, hname, hver] at h1
          exact absurd (congrArg Prod.fst h1) (by simp)
        | vlist xs =>
          simp only [installModule, hval, hmb, hname, hver] at h1
          exact absurd (congrArg Prod.fst h1) (by simp)
        | vdict d2 =>
          simp only [installModule, hval, hmb, hname, hver] at h1
          exact absurd (congrArg Prod.fst h1) (by simp)
      | vnull =>
        simp only [installModule, hval, hmb, hname] at h1
        exact absurd (congrArg Prod.fst h1) (by simp)
      | vbool b =>
        simp only [installModule, hval, hmb, hname] at h1
        exact absurd (congrArg Prod.fst h1) (by simp)
      | vint n =>
        simp only [installModule, hval, hmb, hname] at h1
        exact absurd (congrArg Prod.fst h1) (by simp)
      | vlist xs =>
        simp only [installModule, hval, hmb, hname] at h1
        exact absurd (congrArg Prod.fst h1) (by simp)
      | vdict d2 =>
        simp only [installModule, hval, hmb, hname] at h1
        exact absurd (congrArg Prod.fst h1) (by simp)
    | vnull =>
      simp only [installModule, hval, hmb] at h1
      exact absurd (congrArg Prod.fst h1) (by simp)
    | vbool b =>
      simp only [installModule, hval, hmb] at h1
      exact absurd (congrArg Prod.fst h1) (by simp)
    | vint n =>
      simp only [installModule, hval, hmb] at h1
      exact absurd (congrArg Prod.fst h1) (by simp)
    | vstr s =>
      simp only [installModule, hval, hmb] at h1
      exact absurd (congrArg Prod.fst h1) (by simp)
    | vlist xs =>
      simp only [installModule, hval, hmb] at h1
      exact absurd (congrArg Prod.fst h1) (by simp)

/-!
Test runner, translated from src/promptpm/core/test_runner.py.  The
json.loads of the standard library is abstracted as a parse function
from strings to optional parsed JSON values; the filesystem lookup of
input values is abstracted as a read function from candidate paths to
optional file contents.
-/

/-- Parsed JSON documents, as far as the assertions inspect them. -/
inductive JValue where
  | jnull : JValue
  | jbool (b : Bool) : JValue
  | jnum (n : Int) : JValue
  | jstr (s : Str) : JValue
  | jarr (xs : List JValue) : JValue
  | jobj (entries : List (Str × JValue)) : JValue

/-- Python type name of a parsed JSON value, as str of its type. -/
def jTypeName : JValue → Str
  | .jnull => pstr "NoneType"
  | .jbool _ => pstr "bool"
  | .jnum _ => pstr "int"
  | .jstr _ => pstr "str"
  | .jarr _ => pstr "list"
  | .jobj _ => pstr "dict"

/-- Single assertion failure record, the model of AssertionFailure. -/
structure AssertionFailure where
  test_name : Str
  assertion_index : Nat
  assertion_type : Str
  message : Str
  expected : Str
  actual : Str
deriving DecidableEq

/-- The single-quote character, used by the Python repr in messages. -/
def squote : Char := Char.ofNat 39

/-- Simplified Python repr of a string: the text between single
quotes. -/
def pyReprStr (s : Str) : Str := squote :: (s ++ [squote])

/-- Escape newlines as the preview helper does. -/
def escapeNewlines : Str → Str
  | [] => []
  | c :: rest => if c = '\n' then '\\' :: 'n' :: escapeNewlines rest else c :: escapeNewlines rest

/-- Model of the private preview helper with its default limit. -/
def preview (value : Str) : Str :=
  let normalized := escapeNewlines value
  if normalized.length ≤ 120 then normalized else normalized.take 120 ++ pstr "..."

/-- A JSON string literal; the model leaves characters that need no
escaping untouched and escapes quotes, backslashes and newlines. -/
def jsonString (s : Str) : Str :=
  '"' :: (s.foldr (fun c acc =>
    (if c = '"' then ['\\', '"']
     else if c = '\\' then ['\\', '\\']
     else if c = '\n' then ['\\', 'n']
     else [c]) ++ acc) ['"'])

/-- json.dumps of a list of strings with the default separators, used
in the missing-required-keys failure fields. -/
def jsonDumpsStrList (xs : List Str) : Str :=
  '[' :: (joinSep (pstr ", ") (xs.map jsonString) ++ [']'])

mutual

/-- Canonical json.dumps of a document value: sorted keys, compact
separators. -/
def jsonDumpsValue : Value → Str
  | .vnull => pstr "null"
  | .vbool b => if b then pstr "true" else pstr "false"
  | .vint n => intToStr n
  | .vstr s => jsonString s
  | .vlist xs => '[' :: (joinSep (pstr ",") (jsonDumpsList xs) ++ [']'])
  | .vdict es =>
    '\x7b' :: (joinSep (pstr ",")
      ((pySort (fun a b => strLe a.1 b.1) (jsonDumpsEntries es)).map
        (fun e => jsonString e.1 ++ pstr ":" ++ e.2)) ++ ['\x7d'])

/-- Rendered list elements. -/
def jsonDumpsList : List Value → List Str
  | [] => []
  | v :: rest => jsonDumpsValue v :: jsonDumpsList rest

/-- Entries with rendered values; the keys are sorted afterwards. -/
def jsonDumpsEntries : List (Str × Value) → List (Str × Str)
  | [] => []
  | (k, v) :: rest => (k, jsonDumpsValue v) :: jsonDumpsEntries rest

end

/-- Model of the private stringify_value helper: strings pass through,
anything else becomes canonical JSON. -/
def stringifyValue : Value → Str
  | .vstr s => s
  | v => jsonDumpsValue v

/-- Model of the private resolve_input_value helper: a string naming a
readable file (the read function abstracts the joined-path isfile test
and read) becomes the file contents, any other string stays itself,
non-strings pass through. -/
def resolveInputValue (fileRead : Str → Option Str) : Value → Value
  | .vstr s =>
    match fileRead s with
    | some contents => .vstr contents
    | none => .vstr s
  | v => v

/-- Model of the private render_template helper: for every input key in
ascending sorted order, resolve and stringify the value, then replace
the doubled-brace and the single-brace placeholder forms in the text
rewritten so far. -/
def renderTemplate (fileRead : Str → Option Str) (template : Str)
    (inputs : List (Str × Value)) : Str :=
  (pySort strLe (inputs.map Prod.fst)).foldl (fun rendered key =>
    let value := resolveInputValue fileRead ((alookup key inputs).getD .vnull)
    let valueText := stringifyValue value
    replaceStr
      (replaceStr rendered (pstr "\x7b\x7b" ++ key ++ pstr "\x7d\x7d") valueText)
      (pstr "\x7b" ++ key ++ pstr "\x7d") valueText)
    template

/-- The failure constructor, the model of the private failure helper. -/
def mkFailure (test_name : Str) (assertion_index : Nat) (assertion_type message expected
    actual : Str) : AssertionFailure :=
  { test_name := test_name, assertion_index := assertion_index,
    assertion_type := assertion_type, message := message,
    expected := expected, actual := actual }

/-- Membership of a key among JSON object entries. -/
def jObjHasKey (key : Str) (entries : List (Str × JValue)) : Bool :=
  entries.any (fun e => e.1 = key)

/-- Message of the unsupported-assertion validation error. -/
def unsupportedAssertionMessage (tn : Str) (idx : Nat) (atype : Str) : Str :=
  pstr "Unsupported assertion type in test " ++ pyReprStr tn ++ pstr " at index " ++
    natToStr idx ++ pstr ": " ++ pyReprStr atype

/-- Message of the unsupported-structure-type validation error. -/
def unsupportedStructureMessage (tn : Str) (idx : Nat) (t : Str) : Str :=
  pstr "Unsupported structure type in test " ++ pyReprStr tn ++ pstr " at index " ++
    natToStr idx ++ pstr ": " ++ pyReprStr t

/-- The core of the structure assertion once the expected type and
required keys are known: reject unknown types as a validation error,
then parse the output and record wrong shapes as failures. -/
def checkStructure (jparse : Str → Option JValue) (tn : Str) (idx : Nat) (output : Str)
    (t : Str) (keys : List Str) : Except VErr (Option AssertionFailure) :=
  if ¬(t = pstr "json_object" ∨ t = pstr "json_array") then
    .error (.validation (unsupportedStructureMessage tn idx t))
  else
    match jparse output with
    | none =>
      .ok (some (mkFailure tn idx (pstr "structure")
        (pstr "Expected valid JSON output") t (preview output)))
    | some parsed =>
      if t = pstr "json_object" then
        match parsed with
        | .jobj entries =>
          let missing := keys.filter (fun k => !(jObjHasKey k entries))
          if keys ≠ [] ∧ missing ≠ [] then
            .ok (some (mkFailure tn idx (pstr "structure")
              (pstr "Missing required JSON keys: " ++ joinSep (pstr ", ") missing)
              (jsonDumpsStrList keys)
              (jsonDumpsStrList (pySort strLe (entries.map Prod.fst)))))
          else .ok none
        | _ =>
          .ok (some (mkFailure tn idx (pstr "structure")
            (pstr "Expected JSON object output") (pstr "object") (jTypeName parsed)))
      else
        match parsed with
        | .jarr _ => .ok none
        | _ =>
          .ok (some (mkFailure tn idx (pstr "structure")
            (pstr "Expected JSON array output") (pstr "array") (jTypeName parsed)))

/-- The loop collecting required keys of a structure mapping. -/
def collectRequiredKeys (tn : Str) (idx : Nat) : List Value → Except VErr (List Str)
  | [] => .ok []
  | .vstr s :: rest =>
    if s = [] then
      .error (.validation (pstr "structure.required_keys entries must be non-empty strings in test " ++
        pyReprStr tn ++ pstr " at index " ++ natToStr idx))
    else (collectRequiredKeys tn idx rest).map (s :: ·)
  | _ :: _ =>
    .error (.validation (pstr "structure.required_keys entries must be non-empty strings in test " ++
      pyReprStr tn ++ pstr " at index " ++ natToStr idx))

/-- Model of the private evaluate_structure_assertion helper: a bare
string names the expected type, a mapping may carry a type (defaulting
to json_object when the key is absent) and required keys; anything
else is a validation error. -/
def evaluateStructureAssertion (jparse : Str → Option JValue) (tn : Str) (idx : Nat)
    (output : Str) (assertionValue : Value) : Except VErr (Option AssertionFailure) :=
  match assertionValue with
  | .vstr t => checkStructure jparse tn idx output t []
  | .vdict es =>
    match (alookup (pstr "type") es).getD (.vstr (pstr "json_object")) with
    | .vstr t =>
      match (alookup (pstr "required_keys") es).getD (.vlist []) with
      | .vnull => checkStructure jparse tn idx output t []
      | .vlist rawKeys =>
        match collectRequiredKeys tn idx rawKeys with
        | .error e => .error e
        | .ok keys => checkStructure jparse tn idx output t keys
      | _ =>
        .error (.validation (pstr "structure.required_keys must be a list in test " ++
          pyReprStr tn ++ pstr " at index " ++ natToStr idx))
    | _ =>
      .error (.validation (pstr "structure assertion type must be a string in test " ++
        pyReprStr tn ++ pstr " at index " ++ natToStr idx))
  | _ =>
    .error (.validation (pstr "structure assertion must be a string or mapping in test " ++
      pyReprStr tn ++ pstr " at index " ++ natToStr idx))

/-- Python int interpretation of a value: booleans count as integers,
as isinstance int accepts them. -/
def pyIntValue : Value → Option Int
  | .vint n => some n
  | .vbool b => some (if b then 1 else 0)
  | _ => none

/-- One turn of the assertion loop of evaluate_assertions: dispatch on
the single assertion key and either record an optional failure or
raise a validation error. -/
def evalOneAssertion (jparse : Str → Option JValue) (tn output : Str) (idx : Nat)
    (atype : Str) (avalue : Value) : Except VErr (Option AssertionFailure) :=
  if atype = pstr "contains" then
    match avalue with
    | .vstr s =>
      if !(strContains output s) then
        .ok (some (mkFailure tn idx atype
          (pstr "Expected output to contain " ++ pyReprStr s) s (preview output)))
      else .ok none
    | _ =>
      .error (.validation (atype ++ pstr " assertion must be a string in test " ++
        pyReprStr tn ++ pstr " at index " ++ natToStr idx))
  else if atype = pstr "excludes" then
    match avalue with
    | .vstr s =>
      if strContains output s then
        .ok (some (mkFailure tn idx atype
          (pstr "Expected output to exclude " ++ pyReprStr s) s (preview output)))
      else .ok none
    | _ =>
      .error (.validation (atype ++ pstr " assertion must be a string in test " ++
        pyReprStr tn ++ pstr " at index " ++ natToStr idx))
  else if atype = pstr "max_length" then
    match pyIntValue avalue with
    | some n =>
      if n < 0 then
        .error (.validation (atype ++ pstr " assertion must be a non-negative integer in test " ++
          pyReprStr tn ++ pstr " at index " ++ natToStr idx))
      else if (output.length : Int) > n then
        .ok (some (mkFailure tn idx atype
          (pstr "Expected output length <= " ++ intToStr n ++ pstr ", got " ++
            natToStr output.length)
          (intToStr n) (natToStr output.length)))
      else .ok none
    | none =>
      .error (.validation (atype ++ pstr " assertion must be a non-negative integer in test " ++
        pyReprStr tn ++ pstr " at index " ++ natToStr idx))
  else if atype = pstr "structure" then
    evaluateStructureAssertion jparse tn idx output avalue
  else .error (.validation (unsupportedAssertionMessage tn idx atype))

/-- The indexed loop of evaluate_assertions over the parsed single-key
assertions, collecting the recorded failures in order. -/
def evaluateAssertionsGo (jparse : Str → Option JValue) (tn output : Str) (idx : Nat) :
    List (Str × Value) → Except VErr (List AssertionFailure)
  | [] => .ok []
  | (atype, av) :: rest =>
    match evalOneAssertion jparse tn output idx atype av with
    | .error e => .error e
    | .ok none => evaluateAssertionsGo jparse tn output (idx + 1) rest
    | .ok (some f) => (evaluateAssertionsGo jparse tn output (idx + 1) rest).map (f :: ·)

/-- Model of the private evaluate_assertions function. -/
def evaluateAssertions (jparse : Str → Option JValue) (tn output : Str)
    (assertions : List (Str × Value)) : Except VErr (List AssertionFailure) :=
  evaluateAssertionsGo jparse tn output 0 assertions

/-- C9: assertion dispatch.  An assertion whose single key is not one
of contains, excludes, max_length, structure raises the
unsupported-assertion ValidationError, both at the loop body and
through evaluate_assertions, so it is never recorded as a failure; a
structure assertion with a known type records a failure (never an
error) when the output does not parse as JSON or parses to the wrong
top-level type; a structure assertion with an unknown type string
raises a ValidationError. -/
theorem C9_assertion_errors_and_failures :
    (∀ (jparse : Str → Option JValue) (tn output : Str) (idx : Nat) (atype : Str) (av : Value),
      atype ≠ pstr "contains" → atype ≠ pstr "excludes" → atype ≠ pstr "max_length" →
      atype ≠ pstr "structure" →
      evalOneAssertion jparse tn output idx atype av =
        .error (.validation (unsupportedAssertionMessage tn idx atype)) ∧
      evaluateAssertions jparse tn output [(atype, av)] =
        .error (.validation (unsupportedAssertionMessage tn 0 atype))) ∧
    (∀ (jparse : Str → Option JValue) (tn output : Str) (idx : Nat) (t : Str),
      t ≠ pstr "json_object" → t ≠ pstr "json_array" →
      evaluateStructureAssertion jparse tn idx output (.vstr t) =
        .error (.validation (unsupportedStructureMessage tn idx t))) ∧
    (∀ (jparse : Str → Option JValue) (tn output : Str) (idx : Nat) (t : Str),
      (t = pstr "json_object" ∨ t = pstr "json_array") → jparse output = none →
      evaluateStructureAssertion jparse tn idx output (.vstr t) =
        .ok (some (mkFailure tn idx (pstr "structure") (pstr "Expected valid JSON output") t
          (preview output))) ∧
      evaluateAssertions jparse tn output [(pstr "structure", .vstr t)] =
        .ok [mkFailure tn 0 (pstr "structure") (pstr "Expected valid JSON output") t
          (preview output)]) ∧
    (∀ (jparse : Str → Option JValue) (tn output : Str) (idx : Nat) (v : JValue),
      jparse output = some v → (∀ entries, v ≠ .jobj entries) →
      evaluateStructureAssertion jparse tn idx output (.vstr (pstr "json_object")) =
        .ok (some (mkFailure tn idx (pstr "structure") (pstr "Expected JSON object output")
          (pstr "object") (jTypeName v)))) ∧
    (∀ (jparse : Str → Option JValue) (tn output : Str) (idx : Nat) (v : JValue),
      jparse output = some v → (∀ xs, v ≠ .jarr xs) →
      evaluateStructureAssertion jparse tn idx output (.vstr (pstr "json_array")) =
        .ok (some (mkFailure tn idx (pstr "structure") (pstr "Expected JSON array output")
          (pstr "array") (jTypeName v)))) := by
  have hone : ∀ (jparse : Str → Option JValue) (tn output : Str) (idx : Nat) (atype : Str)
      (av : Value),
      atype ≠ pstr "contains" → atype ≠ pstr "excludes" → atype ≠ pstr "max_length" →
      atype ≠ pstr "structure" →
      evalOneAssertion jparse tn output idx atype av =
        .error (.validation (unsupportedAssertionMessage tn idx atype)) := by
    intro jparse tn output idx atype av h1 h2 h3 h4
    delta evalOneAssertion
    rw [if_neg h1, if_neg h2, if_neg h3, if_neg h4]
  have hcheck : ∀ (jparse : Str → Option JValue) (tn output : Str) (j : Nat) (t : Str)
      (keys : List Str),
      (t = pstr "json_object" ∨ t = pstr "json_array") → jparse output = none →
      checkStructure jparse tn j output t keys =
        .ok (some (mkFailure tn j (pstr "structure") (pstr "Expected valid JSON output") t
          (preview output))) := by
    intro jparse tn output j t keys ht hparse
    rw [checkStructure, if_neg (not_not.mpr ht)]
    simp only [hparse]
  refine ⟨?_, ?_, ?_, ?_, ?_⟩
  · intro jparse tn output idx atype av h1 h2 h3 h4
    refine ⟨hone jparse tn output idx atype av h1 h2 h3 h4, ?_⟩
    rw [evaluateAssertions, evaluateAssertionsGo,
      hone jparse tn output 0 atype av h1 h2 h3 h4]
  · intro jparse tn output idx t h1 h2
    rw [evaluateStructureAssertion, checkStructure,
      if_pos (by intro hc; rcases hc with hc | hc; exact h1 hc; exact h2 hc)]
  · intro jparse tn output idx t ht hparse
    refine ⟨by rw [evaluateStructureAssertion]; exact hcheck jparse tn output idx t [] ht hparse, ?_⟩
    rw [evaluateAssertions, evaluateAssertionsGo]
    have hstruct : evalOneAssertion jparse tn output 0 (pstr "structure") (.vstr t) =
        .ok (some (mkFailure tn 0 (pstr "structure") (pstr "Expected valid JSON output") t
          (preview output))) := by
      delta evalOneAssertion
      rw [if_neg (by decide), if_neg (by decide), if_neg (by decide), if_pos rfl,
        evaluateStructureAssertion]
      exact hcheck jparse tn output 0 t [] ht hparse
    rw [hstruct]
    rfl
  · intro jparse tn output idx v hparse hnotobj
    cases v with
    | jobj entries => exact absurd rfl (hnotobj entries)
    | jnull =>
      delta evaluateStructureAssertion checkStructure
      simp only [hparse]
      rfl
    | jbool b =>
      delta evaluateStructureAssertion checkStructure
      simp only [hparse]
      rfl
    | jnum n =>
      delta evaluateStructureAssertion checkStructure
      simp only [hparse]
      rfl
    | jstr s =>
      delta evaluateStructureAssertion checkStructure
      simp only [hparse]
      rfl
    | jarr xs =>
      delta evaluateStructureAssertion checkStructure
      simp only [hparse]
      rfl
  · intro jparse tn output idx v hparse hnotarr
    cases v with
    | jarr xs => exact absurd rfl (hnotarr xs)
    | jnull =>
      delta evaluateStructureAssertion checkStructure
      simp only [hparse]
      rfl
    | jbool b =>
      delta evaluateStructureAssertion checkStructure
      simp only [hparse]
      rfl
    | jnum n =>
      delta evaluateStructureAssertion checkStructure
      simp only [hparse]
      rfl
    | jstr s =>
      delta evaluateStructureAssertion checkStructure
      simp only [hparse]
      rfl
    | jobj entries =>
      delta evaluateStructureAssertion checkStructure
      simp only [hparse]
      rfl

theorem C9_assertion_errors_and_failures_witness :
    evalOneAssertion (fun _ => none) (pstr "t") (pstr "out") 0 (pstr "startswith") .vnull =
      .error (.validation (unsupportedAssertionMessage (pstr "t") 0 (pstr "startswith"))) ∧
    evaluateStructureAssertion (fun _ => none) (pstr "t") 0 (pstr "out")
        (.vstr (pstr "json_object")) =
      .ok (some (mkFailure (pstr "t") 0 (pstr "structure") (pstr "Expected valid JSON output")
        (pstr "json_object") (preview (pstr "out")))) :=
  ⟨(C9_assertion_errors_and_failures.1 (fun _ => none) (pstr "t") (pstr "out") 0
      (pstr "startswith") .vnull (by decide) (by decide) (by decide) (by decide)).1,
    (C9_assertion_errors_and_failures.2.2.1 (fun _ => none) (pstr "t") (pstr "out") 0
      (pstr "json_object") (Or.inl rfl) rfl).1⟩

/-- Attempt to strip one placeholder of one of the given bindings from the
front of the string: first the doubled-brace form, then the single-brace
form, for each binding in order.  On success return the replacement text
and the remaining input. -/
def tryBindings : List (Str × Str) → Str → Option (Str × Str)
  | [], _ => none
  | (k, v) :: rest, s =>
    match eatLead (pstr "\x7b\x7b" ++ k ++ pstr "\x7d\x7d") s with
    | some r => some (v, r)
    | none =>
      match eatLead (pstr "\x7b" ++ k ++ pstr "\x7d") s with
      | some r => some (v, r)
      | none => tryBindings rest s

/-- Fuelled worker for onePassSubst. -/
def onePassSubstGo (bindings : List (Str × Str)) : Nat → Str → Str
  | _, [] => []
  | 0, s => s
  | fuel + 1, c :: cs =>
    match tryBindings bindings (c :: cs) with
    | some (v, rest) => v ++ onePassSubstGo bindings fuel rest
    | none => c :: onePassSubstGo bindings fuel cs

/-- Simultaneous one-pass substitution, the spec-side alternative that
render_template does NOT implement: scan the template once from the left,
replacing each placeholder by its binding without ever rescanning the
substituted text.  Defined only to be compared against renderTemplate. -/
def onePassSubst (bindings : List (Str × Str)) (s : Str) : Str :=
  onePassSubstGo bindings s.length s

theorem renderTemplate_two_keys (fileRead : Str → Option Str) (template k1 k2 : Str)
    (v1 v2 : Value) (h12 : strLt k1 k2 = true) :
    renderTemplate fileRead template [(k1, v1), (k2, v2)] =
      replaceStr (replaceStr
        (replaceStr (replaceStr template
            (pstr "\x7b\x7b" ++ k1 ++ pstr "\x7d\x7d")
            (stringifyValue (resolveInputValue fileRead v1)))
          (pstr "\x7b" ++ k1 ++ pstr "\x7d")
          (stringifyValue (resolveInputValue fileRead v1)))
        (pstr "\x7b\x7b" ++ k2 ++ pstr "\x7d\x7d")
        (stringifyValue (resolveInputValue fileRead v2)))
      (pstr "\x7b" ++ k2 ++ pstr "\x7d")
      (stringifyValue (resolveInputValue fileRead v2)) := by
  have hne : ¬ (k2 = k1) := by
    intro h
    rw [h, strLt_irrefl] at h12
    exact Bool.false_ne_true h12
  have hle : strLe k1 k2 = true := by
    rw [strLe, strLt_asymm k1 k2 h12]
    rfl
  have hsort : pySort strLe [k1, k2] = [k1, k2] := by
    simp [pySort, insertLe, hle]
  have ha1 : alookup k1 [(k1, v1), (k2, v2)] = some v1 := by
    rw [alookup_cons, if_pos rfl]
  have ha2 : alookup k2 [(k1, v1), (k2, v2)] = some v2 := by
    rw [alookup_cons, if_neg hne, alookup_cons, if_pos rfl]
  rw [renderTemplate]
  simp only [List.map]
  rw [hsort]
  simp only [List.foldl, ha1, ha2, Option.getD]

/-- C10: render_template substitutes test inputs sequentially in ascending
sorted key order, each str.replace applied to the already-rewritten text:
for two keys in sorted order the result is the second key's two
replacements applied to the outcome of the first key's two replacements,
so a value substituted for the earlier key that contains a later key's
placeholder is replaced again; concretely, rendering the single-brace
template of key a with a mapped to the single-brace placeholder of b and
b mapped to X yields X, whereas a simultaneous one-pass substitution of
the same bindings yields the single-brace placeholder of b, a different
string. -/
theorem C10_sequential_template_rendering :
    (∀ (fileRead : Str → Option Str) (template k1 k2 : Str) (v1 v2 : Value),
      strLt k1 k2 = true →
      renderTemplate fileRead template [(k1, v1), (k2, v2)] =
        replaceStr (replaceStr
          (replaceStr (replaceStr template
              (pstr "\x7b\x7b" ++ k1 ++ pstr "\x7d\x7d")
              (stringifyValue (resolveInputValue fileRead v1)))
            (pstr "\x7b" ++ k1 ++ pstr "\x7d")
            (stringifyValue (resolveInputValue fileRead v1)))
          (pstr "\x7b\x7b" ++ k2 ++ pstr "\x7d\x7d")
          (stringifyValue (resolveInputValue fileRead v2)))
        (pstr "\x7b" ++ k2 ++ pstr "\x7d")
        (stringifyValue (resolveInputValue fileRead v2))) ∧
    renderTemplate (fun _ => none) (pstr "\x7ba\x7d")
      [(pstr "a", .vstr (pstr "\x7bb\x7d")), (pstr "b", .vstr (pstr "X"))] = pstr "X" ∧
    onePassSubst [(pstr "a", pstr "\x7bb\x7d"), (pstr "b", pstr "X")] (pstr "\x7ba\x7d") =
      pstr "\x7bb\x7d" ∧
    renderTemplate (fun _ => none) (pstr "\x7ba\x7d")
        [(pstr "a", .vstr (pstr "\x7bb\x7d")), (pstr "b", .vstr (pstr "X"))] ≠
      onePassSubst [(pstr "a", pstr "\x7bb\x7d"), (pstr "b", pstr "X")] (pstr "\x7ba\x7d") :=
  ⟨renderTemplate_two_keys, by decide, by decide, by decide⟩

theorem C10_sequential_template_rendering_witness :
    strLt (pstr "a") (pstr "b") = true ∧
    renderTemplate (fun _ => none) (pstr "\x7ba\x7d")
        [(pstr "a", .vstr (pstr "\x7bb\x7d")), (pstr "b", .vstr (pstr "X"))] =
      replaceStr (replaceStr
        (replaceStr (replaceStr (pstr "\x7ba\x7d")
            (pstr "\x7b\x7b" ++ pstr "a" ++ pstr "\x7d\x7d")
            (stringifyValue (resolveInputValue (fun _ => none) (.vstr (pstr "\x7bb\x7d")))))
          (pstr "\x7b" ++ pstr "a" ++ pstr "\x7d")
          (stringifyValue (resolveInputValue (fun _ => none) (.vstr (pstr "\x7bb\x7d")))))
        (pstr "\x7b\x7b" ++ pstr "b" ++ pstr "\x7d\x7d")
        (stringifyValue (resolveInputValue (fun _ => none) (.vstr (pstr "X")))))
      (pstr "\x7b" ++ pstr "b" ++ pstr "\x7d")
      (stringifyValue (resolveInputValue (fun _ => none) (.vstr (pstr "X")))) :=
  ⟨by decide, C10_sequential_template_rendering.1 (fun _ => none) (pstr "\x7ba\x7d")
    (pstr "a") (pstr "b") (.vstr (pstr "\x7bb\x7d")) (.vstr (pstr "X")) (by decide)⟩

/-- A 64-character hex digest used by the C1 witness walk. -/
def c1Digest : Str :=
  pstr "0123456789abcdef0123456789abcdef0123456789abcdef0123456789abcdef"

theorem C1_verify_immutability_manifest_witness :
    ([(pstr "a.txt", c1Digest)].map Prod.fst).Nodup ∧
    (∀ e ∈ [(pstr "a.txt", c1Digest)], e.1 ≠ [] ∧ e.2.length = 64) ∧
    (verifyImmutability (pstr "m") (pstr "1.0.0")
        (writeImmutabilityManifest (pstr "m") (pstr "1.0.0") [(pstr "a.txt", c1Digest)])
        [(pstr "a.txt", c1Digest)] = .ok () ↔
      ∀ p, alookup p ([(pstr "a.txt", c1Digest)].filter
          (fun e => e.1 ≠ immutabilityManifestFilename)) =
        alookup p ([(pstr "a.txt", c1Digest)].filter
          (fun e => e.1 ≠ immutabilityManifestFilename))) :=
  ⟨by decide, by decide, (C1_verify_immutability_manifest (pstr "m") (pstr "1.0.0")
    [(pstr "a.txt", c1Digest)] [(pstr "a.txt", c1Digest)]
    (by decide) (by decide) (by decide)).1⟩

/-- First installed candidate for the C3 witness. -/
def c3CandA : InstalledModule :=
  { name := pstr "x", version := pstr "1.0.0", path := pstr "/reg/modules/x/1.0.0" }

/-- Second installed candidate for the C3 witness, higher precedence. -/
def c3CandB : InstalledModule :=
  { name := pstr "x", version := pstr "1.2.0", path := pstr "/reg/modules/x/1.2.0" }

theorem C3_select_installed_version_witness :
    selectInstalledVersion (pstr "x") (pstr "^1.0.0") (pstr "root") [c3CandA, c3CandB] =
      .ok c3CandB ∧
    c3CandB ∈ [c3CandA, c3CandB] ∧
    (∃ sv, parseVersion c3CandB.version = some sv ∧
      satisfiesVersionRange sv (pstr "^1.0.0") = some true ∧
      ∀ c ∈ [c3CandA, c3CandB], ∀ svc, parseVersion c.version = some svc →
        satisfiesVersionRange svc (pstr "^1.0.0") = some true →
        (compareTo svc sv < 0 ∨
          (compareTo svc sv = 0 ∧ strLe c.version c3CandB.version = true))) := by
  have hsel : selectInstalledVersion (pstr "x") (pstr "^1.0.0") (pstr "root")
      [c3CandA, c3CandB] = .ok c3CandB := by rfl
  have h := C3_select_installed_version.2.2 (pstr "x") (pstr "^1.0.0") (pstr "root")
    [c3CandA, c3CandB] c3CandB hsel
  exact ⟨hsel, h.1, h.2⟩

theorem C4_compare_versions_total_order_witness :
    compareTo { major := 1, minor := 0, patch := 0, prerelease := [], build := [] }
        { major := 1, minor := 1, patch := 0, prerelease := [], build := [] } < 0 ∧
    compareTo { major := 1, minor := 1, patch := 0, prerelease := [], build := [] }
        { major := 2, minor := 0, patch := 0, prerelease := [], build := [] } < 0 ∧
    compareTo { major := 1, minor := 0, patch := 0, prerelease := [], build := [] }
        { major := 2, minor := 0, patch := 0, prerelease := [], build := [] } < 0 :=
  ⟨by decide, by decide,
    C4_compare_versions_total_order.2.2.2.1
      { major := 1, minor := 0, patch := 0, prerelease := [], build := [] }
      { major := 1, minor := 1, patch := 0, prerelease := [], build := [] }
      { major := 2, minor := 0, patch := 0, prerelease := [], build := [] }
      (by decide) (by decide)⟩

theorem C5_caret_range_equivalence_witness :
    parseVersion (pstr "1.2.3") =
      some { major := 1, minor := 2, patch := 3, prerelease := [], build := [] } ∧
    parseRangeToken ('^' :: pstr "1.2.3") =
      some [⟨.geOp, { major := 1, minor := 2, patch := 3, prerelease := [], build := [] }⟩,
        ⟨.ltOp, caretUpperBound
          { major := 1, minor := 2, patch := 3, prerelease := [], build := [] }⟩] :=
  ⟨by decide, C5_caret_range_equivalence.2.1 (pstr "1.2.3")
    { major := 1, minor := 2, patch := 3, prerelease := [], build := [] } (by decide)⟩

/-- The empty registry the C6 witness installs into. -/
def c6Fs : RegistryState := { root := pstr "/reg", modules := [] }

/-- The source module directory of the C6 witness: a valid document,
its two files, read as a directory. -/
def c6Src : SourceModule :=
  { doc := [
      (pstr "module", .vdict [
        (pstr "name", .vstr (pstr "m")),
        (pstr "version", .vstr (pstr "1.0.0")),
        (pstr "description", .vstr (pstr "d"))]),
      (pstr "prompt", .vdict [
        (pstr "template", .vstr (pstr "template.prompt")),
        (pstr "placeholders", .vlist [.vstr (pstr "document")])]),
      (pstr "interface", .vdict [
        (pstr "intent", .vstr (pstr "i")),
        (pstr "inputs", .vlist [.vdict [
          (pstr "name", .vstr (pstr "document")),
          (pstr "type", .vstr (pstr "text")),
          (pstr "description", .vstr (pstr "doc")),
          (pstr "required", .vbool true)]]),
        (pstr "outputs", .vlist [.vdict [
          (pstr "type", .vstr (pstr "text")),
          (pstr "description", .vstr (pstr "out"))]])])],
    sourcePath := pstr "/mod",
    files := [(pstr "promptpm.yaml", pstr "doc-bytes"), (pstr "template.prompt", pstr "body")],
    isDir := true }

/-- The constant digest function of the C6 witness. -/
def c6Hash : Str → Str := fun _ => c1Digest

/-- The record the first C6 witness install returns. -/
def c6Inst : InstalledModule :=
  { name := pstr "m", version := pstr "1.0.0",
    path := moduleDirectory (pstr "/reg") (pstr "m") (pstr "1.0.0") }

/-- The registry state after the first C6 witness install. -/
def c6Fs1 : RegistryState := (installModule c6Fs c6Src c6Hash).2

theorem C6_install_twice_immutable_witness :
    installModule c6Fs c6Src c6Hash = (.ok c6Inst, c6Fs1) ∧
    ((lookupModuleDir c6Inst.name c6Inst.version c6Fs1.modules).isSome ∧
      c6Inst.path = moduleDirectory c6Fs.root c6Inst.name c6Inst.version ∧
      installModule c6Fs1 c6Src c6Hash =
        (.error (.registry (.alreadyInstalled
          (alreadyInstalledMessage c6Inst.name c6Inst.version))), c6Fs1)) :=
  ⟨rfl, C6_install_twice_immutable c6Fs c6Src c6Hash c6Inst c6Fs1 rfl⟩
